import Mathlib

/-!
Verification development for the `tauri-plugin-rusqlite2` repository.

Shallow embedding of `src/convert.rs`, `src/error.rs` and `src/commands.rs`:
pure value conversion functions become Lean functions; the stateful command
surface (alias registry, transaction registry, database contents) becomes
explicit state passing over an `AppState` record, with the behaviour of the
external SQLite engine (success/failure of open, close, COMMIT, ROLLBACK,
statement execution) supplied as explicit oracle arguments, and database
contents modelled freely as the list of successfully applied statements.
-/

namespace Rusqlite2

/-- Model of an IEEE-754 64-bit float as used by `serde_json` and `rusqlite`:
either a finite value (every finite double is a rational) or one of the
non-finite classes.  No float arithmetic is performed anywhere in the
embedded code, only classification (finite / NaN / infinite) and pass-through,
so this model is exact for the properties proved here. -/
inductive F64 where
  | finite (q : ℚ)
  | nan
  | inf
  | negInf
deriving DecidableEq

/-- Model of `serde_json::Number` (default features): a tagged union of a
non-negative integer stored as `u64`, a negative integer stored as `i64`,
or a finite double. -/
inductive JsonNumber where
  | posInt (n : ℕ)
  | negInt (i : ℤ)
  | float (f : F64)
deriving DecidableEq

/-- Model of `serde_json::Value`. -/
inductive JsonValue where
  | null
  | bool (b : Bool)
  | num (n : JsonNumber)
  | str (s : String)
  | arr (xs : List JsonValue)
  | obj (kvs : List (String × JsonValue))

/-- Model of `serde_json::Number::as_i64` (default features): succeeds on the
`PosInt` variant when the value fits in `i64`, always succeeds on `NegInt`
(which is stored as an `i64`), and always fails on the `Float` variant, even
when the float is integral. -/
def JsonNumber.asI64 : JsonNumber → Option ℤ
  | .posInt n => if n ≤ 2 ^ 63 - 1 then some (n : ℤ) else none
  | .negInt i => some i
  | .float _ => none

/-- Model of the `u64 → f64` / `i64 → f64` casts used by
`serde_json::Number::as_f64`.  The rounding a real cast performs is not
modelled; no theorem below depends on the value produced here, only on the
fact that the result is a float. -/
def intAsF64 (i : ℤ) : F64 := .finite (i : ℚ)

/-- Model of `serde_json::Number::as_f64` (default features): succeeds on
every variant. -/
def JsonNumber.asF64 : JsonNumber → Option F64
  | .posInt n => some (intAsF64 (n : ℤ))
  | .negInt i => some (intAsF64 i)
  | .float f => some f

/-- Model of `serde_json::Number::from_f64`: succeeds exactly on finite
floats. -/
def JsonNumber.fromF64 : F64 → Option JsonNumber
  | .finite q => some (.float (.finite q))
  | .nan => none
  | .inf => none
  | .negInf => none

/-- Model of `serde_json::Number::from(i : i64)`: negative values use the
`NegInt` variant, non-negative ones the `PosInt` variant. -/
def JsonNumber.ofI64 (i : ℤ) : JsonNumber :=
  if i < 0 then .negInt i else .posInt i.toNat

/-- Model of `crate::Error` (`src/error.rs`).  `rusqlite` wraps the message of
an underlying engine error. -/
inductive Error where
  | rusqlite (msg : String)
  | invalidDatabaseUrl (url : String)
  | databaseNotLoaded (alias' : String)
  | unsupportedDatabaseType (kind : String)
  | cannotResolvePath
  | transactionNotFound (id : String)
  | invalidUuid (id : String)
  | connectionFailed (location detail : String)
  | valueConversionError (msg : String)
  | ioErr (msg : String)
  | extensionLoadFailed (msg : String)
deriving DecidableEq

/-- Model of the boxed `rusqlite::ToSql` values produced by
`json_to_rusqlite_param`: the Rust value that gets boxed is kept as a tag. -/
inductive SqlParam where
  | null
  | boolean (b : Bool)
  | integer (i : ℤ)
  | real (f : F64)
  | text (s : String)
deriving DecidableEq

/-- Model of `rusqlite::types::ValueRef`: the native column values handed back
by the engine.  `text` carries raw bytes (`&[u8]` in the source), as does
`blob`. -/
inductive SqlValue where
  | null
  | integer (i : ℤ)
  | real (f : F64)
  | text (bytes : List ℕ)
  | blob (bytes : List ℕ)
deriving DecidableEq

/-- Embedding of `convert::json_to_rusqlite_param` (`src/convert.rs`,
lines 11-38). -/
def json_to_rusqlite_param : JsonValue → Except Error SqlParam
  | .null => .ok .null
  | .bool b => .ok (.boolean b)
  | .num n =>
    match n.asI64 with
    | some i => .ok (.integer i)
    | none =>
      match n.asF64 with
      | some f => .ok (.real f)
      | none => .error (.valueConversionError "Unsupported number type")
  | .str s => .ok (.text s)
  | .arr _ => .error (.valueConversionError "JSON arrays are not supported as parameters")
  | .obj _ => .error (.valueConversionError "JSON objects are not supported as parameters")

/-- Embedding of `convert::json_to_rusqlite_params` (`src/convert.rs`,
lines 41-45): `params.into_iter().map(json_to_rusqlite_param).collect()`,
which stops at the first failing element. -/
def json_to_rusqlite_params : List JsonValue → Except Error (List SqlParam)
  | [] => .ok []
  | v :: vs =>
    match json_to_rusqlite_param v with
    | .error e => .error e
    | .ok p =>
      match json_to_rusqlite_params vs with
      | .error e => .error e
      | .ok ps => .ok (p :: ps)

/-! ### UTF-8 lossy decoding (`String::from_utf8_lossy`)

Rust's lossy decoder follows the WHATWG "maximal subpart" policy: each
ill-formed subsequence is replaced by a single U+FFFD replacement character,
where an invalid lead byte or an invalid second byte consumes one byte, an
invalid third byte consumes the two bytes already read, and an invalid fourth
byte consumes the three bytes already read.  The decoder below produces the
list of decoded code points. -/

/-- A UTF-8 continuation byte: `0x80 ..= 0xBF`. -/
def contByte (b : ℕ) : Bool := 0x80 ≤ b && b ≤ 0xBF

/-- Valid second byte of a three-byte sequence, given the lead byte
(`0xE0` excludes overlong forms, `0xED` excludes surrogates). -/
def valid3Second (b0 b1 : ℕ) : Bool :=
  if b0 = 0xE0 then 0xA0 ≤ b1 && b1 ≤ 0xBF
  else if b0 = 0xED then 0x80 ≤ b1 && b1 ≤ 0x9F
  else contByte b1

/-- Valid second byte of a four-byte sequence, given the lead byte
(`0xF0` excludes overlong forms, `0xF4` caps at U+10FFFF). -/
def valid4Second (b0 b1 : ℕ) : Bool :=
  if b0 = 0xF0 then 0x90 ≤ b1 && b1 ≤ 0xBF
  else if b0 = 0xF4 then 0x80 ≤ b1 && b1 ≤ 0x8F
  else contByte b1

/-- The replacement character U+FFFD. -/
def replacementChar : ℕ := 0xFFFD

/-- Embedding of Rust's `String::from_utf8_lossy` decoding loop, producing
the decoded code points. -/
def utf8DecodeLossy : List ℕ → List ℕ
  | [] => []
  | b0 :: rest =>
    if b0 < 0x80 then b0 :: utf8DecodeLossy rest
    else if b0 < 0xC2 then replacementChar :: utf8DecodeLossy rest
    else if b0 ≤ 0xDF then
      match rest with
      | [] => [replacementChar]
      | b1 :: rest' =>
        if contByte b1 then
          ((b0 - 0xC0) * 64 + (b1 - 0x80)) :: utf8DecodeLossy rest'
        else replacementChar :: utf8DecodeLossy (b1 :: rest')
    else if b0 ≤ 0xEF then
      match rest with
      | [] => [replacementChar]
      | b1 :: rest' =>
        if valid3Second b0 b1 then
          match rest' with
          | [] => [replacementChar]
          | b2 :: rest'' =>
            if contByte b2 then
              ((b0 - 0xE0) * 4096 + (b1 - 0x80) * 64 + (b2 - 0x80)) ::
                utf8DecodeLossy rest''
            else replacementChar :: utf8DecodeLossy (b2 :: rest'')
        else replacementChar :: utf8DecodeLossy (b1 :: rest')
    else if b0 ≤ 0xF4 then
      match rest with
      | [] => [replacementChar]
      | b1 :: rest' =>
        if valid4Second b0 b1 then
          match rest' with
          | [] => [replacementChar]
          | b2 :: rest'' =>
            if contByte b2 then
              match rest'' with
              | [] => [replacementChar]
              | b3 :: rest''' =>
                if contByte b3 then
                  ((b0 - 0xF0) * 0x40000 + (b1 - 0x80) * 4096 +
                      (b2 - 0x80) * 64 + (b3 - 0x80)) ::
                    utf8DecodeLossy rest'''
                else replacementChar :: utf8DecodeLossy (b3 :: rest''')
            else replacementChar :: utf8DecodeLossy (b2 :: rest'')
        else replacementChar :: utf8DecodeLossy (b1 :: rest')
    else replacementChar :: utf8DecodeLossy rest
termination_by l => l.length
decreasing_by all_goals simp_arith [List.length]

/-- UTF-8 encoding of one Unicode scalar value. -/
def utf8EncodeChar (c : ℕ) : List ℕ :=
  if c < 0x80 then [c]
  else if c < 0x800 then [0xC0 + c / 64, 0x80 + c % 64]
  else if c < 0x10000 then
    [0xE0 + c / 4096, 0x80 + c / 64 % 64, 0x80 + c % 64]
  else
    [0xF0 + c / 0x40000, 0x80 + c / 4096 % 64, 0x80 + c / 64 % 64, 0x80 + c % 64]

/-- UTF-8 encoding of a sequence of scalar values. -/
def utf8Encode (cs : List ℕ) : List ℕ := (cs.map utf8EncodeChar).flatten

/-- A Unicode scalar value: below the surrogate range or between it and
U+10FFFF. -/
def IsScalar (c : ℕ) : Prop := c < 0xD800 ∨ (0xE000 ≤ c ∧ c < 0x110000)

instance (c : ℕ) : Decidable (IsScalar c) := by unfold IsScalar; infer_instance

/-- A byte sequence is valid UTF-8 when it is the encoding of some sequence of
scalar values. -/
def IsUtf8 (bs : List ℕ) : Prop :=
  ∃ cs : List ℕ, (∀ c ∈ cs, IsScalar c) ∧ utf8Encode cs = bs

/-- Turning decoded code points into a Lean string, modelling the `String`
built by `from_utf8_lossy(..).into_owned()`. -/
def codepointsToString (cs : List ℕ) : String :=
  String.mk (cs.map Char.ofNat)

/-- Model of `String::from_utf8_lossy(t).into_owned()`. -/
def utf8LossyString (bytes : List ℕ) : String :=
  codepointsToString (utf8DecodeLossy bytes)

/-! ### Base64 (standard alphabet, with padding), as used for blobs. -/

/-- The standard base64 alphabet. -/
def b64Alphabet : List Char :=
  "ABCDEFGHIJKLMNOPQRSTUVWXYZabcdefghijklmnopqrstuvwxyz0123456789+/".toList

/-- Character for one 6-bit group. -/
def b64Char (n : ℕ) : Char := b64Alphabet.getD n 'A'

/-- Base64 encoding of a byte list, three bytes at a time, with `=` padding. -/
def base64Chunks : List ℕ → List Char
  | a :: b :: c :: rest =>
    b64Char (a / 4) :: b64Char (a % 4 * 16 + b / 16) ::
      b64Char (b % 16 * 4 + c / 64) :: b64Char (c % 64) :: base64Chunks rest
  | [a, b] => [b64Char (a / 4), b64Char (a % 4 * 16 + b / 16), b64Char (b % 16 * 4), '=']
  | [a] => [b64Char (a / 4), b64Char (a % 4 * 16), '=', '=']
  | [] => []

/-- Model of `base64::engine::general_purpose::STANDARD.encode`. -/
def base64Encode (bs : List ℕ) : String := String.mk (base64Chunks bs)

/-- Embedding of `convert::rusqlite_value_to_json` (`src/convert.rs`,
lines 49-67). -/
def rusqlite_value_to_json : SqlValue → Except Error JsonValue
  | .null => .ok .null
  | .integer i => .ok (.num (JsonNumber.ofI64 i))
  | .real f =>
    match JsonNumber.fromF64 f with
    | some n => .ok (.num n)
    | none => .error (.valueConversionError "Cannot convert f64 to JSON Number")
  | .text t => .ok (.str (utf8LossyString t))
  | .blob b => .ok (.str (base64Encode b))

/-! ### Association-list model of `std::collections::HashMap`

Insertion overwrites any existing binding; removal deletes the binding;
lookup finds the unique binding.  Key order is irrelevant to every theorem
below, matching the unordered Rust map. -/

/-- First-match lookup. -/
def lookupA {κ α : Type} [DecidableEq κ] : List (κ × α) → κ → Option α
  | [], _ => none
  | (k', v) :: rest, k => if k' = k then some v else lookupA rest k

/-- `HashMap::remove`: drop the binding for `k`. -/
def eraseA {κ α : Type} [DecidableEq κ] (k : κ) (m : List (κ × α)) : List (κ × α) :=
  m.filter (fun p => p.1 ≠ k)

/-- `HashMap::insert`: overwrite any existing binding for `k`. -/
def insertA {κ α : Type} [DecidableEq κ] (k : κ) (v : α) (m : List (κ × α)) :
    List (κ × α) :=
  (k, v) :: eraseA k m

/-! ### State model of `src/lib.rs` and `src/commands.rs` -/

/-- Database locations (`std::path::PathBuf` rendered as a string). -/
abbrev DbPath := String

/-- `DbInfo` from `src/lib.rs`: the resolved path stored per alias. -/
structure DbInfo where
  path : DbPath
deriving DecidableEq

/-- Transaction identifiers.  `uuid::Uuid` values are modelled as naturals;
their string rendering and fallible parsing are modelled below. -/
abbrev Uuid := ℕ

/-- Rendering of a transaction identifier (`Uuid::to_string` in the model:
the decimal rendering of the natural). -/
def uuidToStr (u : Uuid) : String := toString u

/-- One decimal digit. -/
def digitOfChar (c : Char) : Option ℕ :=
  if '0' ≤ c ∧ c ≤ '9' then some (c.toNat - '0'.toNat) else none

/-- Parse a non-empty all-digit character list. -/
def parseDigits : List Char → Option ℕ → Option ℕ
  | [], acc => acc
  | c :: cs, acc =>
    match digitOfChar c, acc with
    | some d, some n => parseDigits cs (some (n * 10 + d))
    | some d, none => parseDigits cs (some d)
    | none, _ => none

/-- Model of `Uuid::from_str`: fails exactly on strings that are not the
rendering of an identifier (here: not a non-empty digit string).  The exact
accepted grammar of the external `uuid` crate is irrelevant to the claims,
which only distinguish parse success from parse failure. -/
def uuidFromStr (s : String) : Option Uuid := parseDigits s.toList none

/-- A statement successfully applied to a database.  Database contents are
modelled freely as the list of applied statements, so "the effects of a
statement are visible in a database" is modelled as membership of the
statement in that list.  `mig` records a migration-runner application. -/
inductive Stmt where
  | sql (query : String) (params : List SqlParam)
  | mig (version : ℕ)
deriving DecidableEq

/-- Free model of the contents of one database file. -/
abbrev DB := List Stmt

/-- A `TransactionManager` entry: the dedicated connection's path, and the
statements applied on it since `BEGIN` (its uncommitted pending effects). -/
structure TxConn where
  path : DbPath
  pending : DB
deriving DecidableEq

/-- The complete mutable state reachable from `Rusqlite2Connections`:
the alias registry (`ConnectionManager`), the transaction registry
(`TransactionManager`), and the contents of every database file. -/
structure AppState where
  connections : List (String × DbInfo)
  transactions : List (Uuid × TxConn)
  committed : List (DbPath × DB)
deriving DecidableEq

/-- Contents of the database file at `p` (empty when never written). -/
def dbAt (st : AppState) (p : DbPath) : DB := (lookupA st.committed p).getD []

/-- Overwrite the contents of the database file at `p`. -/
def setDb (st : AppState) (p : DbPath) (d : DB) : AppState :=
  { st with committed := insertA p d st.committed }

/-! ### `load` and `close` -/

/-- Host-environment oracle for one `load` call: the result of
`app.path().app_data_dir()`, of `std::fs::create_dir_all`, and of the
probe `Connection::open` / `close` (each `some e` is a failure carrying the
engine's error message). -/
structure ProbeEnv where
  appDataDir : Except String DbPath
  mkdirRes : Option String
  openRes : Option String
  closeRes : Option String

/-- The observable I/O actions `load` can perform, in order. -/
inductive IOAct where
  | appDataDirQ
  | mkdirAct
  | openAct
  | closeAct
deriving DecidableEq

/-- `str.split_once(':')`, on character lists. -/
def splitOnceColonList : List Char → Option (List Char × List Char)
  | [] => none
  | c :: cs =>
    if c = ':' then some ([], cs)
    else (splitOnceColonList cs).map (fun p => (c :: p.1, p.2))

/-- `db.split_once(':')`. -/
def splitOnceColon (s : String) : Option (String × String) :=
  (splitOnceColonList s.toList).map (fun p => (String.mk p.1, String.mk p.2))

/-- Path resolution inside `load` (`src/commands.rs`, lines 78-91): the
reserved in-memory marker is kept verbatim; otherwise the path part is
joined to the host-supplied base directory after creating missing parent
directories.  Returns the resolved path together with the I/O performed. -/
def resolveDbPath (env : ProbeEnv) (pathPart : String) :
    Except Error DbPath × List IOAct :=
  if pathPart = ":memory:" then (.ok ":memory:", [])
  else
    match env.appDataDir with
    | .error e =>
      (.error (.ioErr ("Failed to get app_data_dir: " ++ e)), [.appDataDirQ])
    | .ok base =>
      match env.mkdirRes with
      | some e =>
        (.error (.ioErr ("Failed to create parent directory: " ++ e)),
          [.appDataDirQ, .mkdirAct])
      | none => (.ok (base ++ "/" ++ pathPart), [.appDataDirQ, .mkdirAct])

/-- Embedding of the `load` command (`src/commands.rs`, lines 65-117).
Returns the command result, the successor state, and the I/O performed. -/
def load (env : ProbeEnv) (st : AppState) (db : String) :
    Except Error String × AppState × List IOAct :=
  match splitOnceColon db with
  | none => (.error (.invalidDatabaseUrl db), st, [])
  | some (kind, pathPart) =>
    if kind ≠ "sqlite" then (.error (.unsupportedDatabaseType kind), st, [])
    else
      match resolveDbPath env pathPart with
      | (.error e, io) => (.error e, st, io)
      | (.ok path, io) =>
        match env.openRes with
        | some e => (.error (.connectionFailed path e), st, io ++ [.openAct])
        | none =>
          match env.closeRes with
          | some e =>
            (.error (.connectionFailed path ("Failed to close test connection: " ++ e)),
              st, io ++ [.openAct, .closeAct])
          | none =>
            (.ok db,
              { st with connections := insertA db ⟨path⟩ st.connections },
              io ++ [.openAct, .closeAct])

/-- Embedding of the `close` command (`src/commands.rs`, lines 123-155). -/
def close (st : AppState) (db : Option String) : Except Error Bool × AppState :=
  match db with
  | some alias' =>
    match lookupA st.connections alias' with
    | none => (.error (.databaseNotLoaded alias'), st)
    | some _ => (.ok true, { st with connections := eraseA alias' st.connections })
  | none => (.ok true, { st with connections := [] })

/-! ### Transaction commands -/

/-- Embedding of `begin_transaction` (`src/commands.rs`, lines 160-204).
`fresh` is the identifier drawn by `Uuid::new_v4`; `openRes`, `busyRes` and
`beginRes` are the engine's responses to `Connection::open`, `busy_timeout`
and `execute_batch("BEGIN IMMEDIATE")`. -/
def begin_transaction (st : AppState) (dbAlias : String) (fresh : Uuid)
    (openRes busyRes beginRes : Option String) :
    Except Error String × AppState :=
  match lookupA st.connections dbAlias with
  | none => (.error (.databaseNotLoaded dbAlias), st)
  | some info =>
    match openRes with
    | some e => (.error (.connectionFailed info.path e), st)
    | none =>
      match busyRes with
      | some e => (.error (.rusqlite e), st)
      | none =>
        match beginRes with
        | some e => (.error (.rusqlite e), st)
        | none =>
          (.ok (uuidToStr fresh),
            { st with transactions := insertA fresh ⟨info.path, []⟩ st.transactions })

/-- Embedding of `commit_transaction` (`src/commands.rs`, lines 207-232).
The registry entry is removed before `COMMIT` is issued; `commitRes` is the
engine's response to `execute_batch("COMMIT")` (`some e` = failure).  On
success the pending statements become part of the file's contents. -/
def commit_transaction (st : AppState) (txId : String) (commitRes : Option String) :
    Except Error Unit × AppState :=
  match uuidFromStr txId with
  | none => (.error (.invalidUuid txId), st)
  | some uuid =>
    match lookupA st.transactions uuid with
    | none => (.error (.transactionNotFound txId), st)
    | some conn =>
      let st' := { st with transactions := eraseA uuid st.transactions }
      match commitRes with
      | some e => (.error (.rusqlite e), st')
      | none => (.ok (), setDb st' conn.path (dbAt st' conn.path ++ conn.pending))

/-- Embedding of `rollback_transaction` (`src/commands.rs`, lines 235-261).
`rbRes` is the engine's response to `execute_batch("ROLLBACK")`; a failure is
only logged, so the result does not depend on it, and the pending statements
are discarded either way. -/
def rollback_transaction (st : AppState) (txId : String) (_rbRes : Option String) :
    Except Error Unit × AppState :=
  match uuidFromStr txId with
  | none => (.error (.invalidUuid txId), st)
  | some uuid =>
    match lookupA st.transactions uuid with
    | none => (.error (.transactionNotFound txId), st)
    | some _ =>
      (.ok (), { st with transactions := eraseA uuid st.transactions })

/-! ### `execute` and `select` -/

/-- Embedding of the `execute` command (`src/commands.rs`, lines 267-320).
`execRes` is the engine's response to running the statement
(`.ok (changes, last_insert_rowid)` or `.error message`); `openRes` and
`closeRes` govern the ephemeral connection of the non-transactional branch.
A successfully executed statement is appended to the transaction's pending
list (transactional branch) or to the file's contents (non-transactional
branch). -/
def execute (st : AppState) (dbAlias : String) (query : String)
    (values : List JsonValue) (txId : Option String)
    (openRes : Option String) (execRes : Except String (ℕ × ℤ))
    (closeRes : Option String) :
    Except Error (ℕ × ℤ) × AppState :=
  match json_to_rusqlite_params values with
  | .error e => (.error e, st)
  | .ok params =>
    match txId with
    | some txStr =>
      match uuidFromStr txStr with
      | none => (.error (.invalidUuid txStr), st)
      | some uuid =>
        match lookupA st.transactions uuid with
        | none => (.error (.transactionNotFound txStr), st)
        | some conn =>
          match execRes with
          | .error e => (.error (.rusqlite e), st)
          | .ok r =>
            let conn' : TxConn := ⟨conn.path, conn.pending ++ [Stmt.sql query params]⟩
            (.ok r, { st with transactions := insertA uuid conn' st.transactions })
    | none =>
      match lookupA st.connections dbAlias with
      | none => (.error (.databaseNotLoaded dbAlias), st)
      | some info =>
        match openRes with
        | some e => (.error (.connectionFailed info.path e), st)
        | none =>
          match execRes with
          | .error e => (.error (.rusqlite e), st)
          | .ok r =>
            let st' := setDb st info.path (dbAt st info.path ++ [Stmt.sql query params])
            match closeRes with
            | some e =>
              (.error (.connectionFailed info.path
                  ("Failed to close connection after non-TX execute: " ++ e)), st')
            | none => (.ok r, st')

/-- One step of the row-materialization loop of `select`
(`src/commands.rs`, lines 351-357 and 387-393): `IndexMap::insert`, which
overwrites the value of an existing key in place and otherwise appends. -/
def indexMapInsert (k : String) (v : JsonValue) :
    List (String × JsonValue) → List (String × JsonValue)
  | [] => [(k, v)]
  | (k', v') :: rest =>
    if k' = k then (k', v) :: rest else (k', v') :: indexMapInsert k v rest

/-- The row loop body: for each column index and name, `row.get_ref(i)`
(an engine error when out of range), value conversion, and insertion. -/
def buildRowMapAux (row : List SqlValue) :
    ℕ → List String → List (String × JsonValue) →
    Except Error (List (String × JsonValue))
  | _, [], acc => .ok acc
  | i, c :: cs, acc =>
    match row.get? i with
    | none => .error (.rusqlite "InvalidColumnIndex")
    | some v =>
      match rusqlite_value_to_json v with
      | .error e => .error e
      | .ok j => buildRowMapAux row (i + 1) cs (indexMapInsert c j acc)

/-- Materialize one result row as an ordered column-name-to-value mapping. -/
def buildRowMap (cols : List String) (row : List SqlValue) :
    Except Error (List (String × JsonValue)) :=
  buildRowMapAux row 0 cols []

/-- Materialize all result rows, stopping at the first failure. -/
def rowsToMaps (cols : List String) :
    List (List SqlValue) → Except Error (List (List (String × JsonValue)))
  | [] => .ok []
  | r :: rs =>
    match buildRowMap cols r with
    | .error e => .error e
    | .ok m =>
      match rowsToMaps cols rs with
      | .error e => .error e
      | .ok ms => .ok (m :: ms)

/-- The engine's behaviour on one query: given the query text, the converted
parameters and the contents of the database it runs against, either an engine
error or the column names together with the raw result rows. -/
abbrev QueryEval := String → List SqlParam → DB → Except String (List String × List (List SqlValue))

/-- Embedding of the `select` command (`src/commands.rs`, lines 323-407).
The transactional branch queries the pinned connection, which sees the file's
contents plus the transaction's own pending statements; the non-transactional
branch opens an ephemeral connection and sees only the file's contents.
`select` never modifies the state. -/
def select (st : AppState) (dbAlias : String) (query : String)
    (values : List JsonValue) (txId : Option String) (qeval : QueryEval)
    (openRes closeRes : Option String) :
    Except Error (List (List (String × JsonValue))) × AppState :=
  match json_to_rusqlite_params values with
  | .error e => (.error e, st)
  | .ok params =>
    match txId with
    | some txStr =>
      match uuidFromStr txStr with
      | none => (.error (.invalidUuid txStr), st)
      | some uuid =>
        match lookupA st.transactions uuid with
        | none => (.error (.transactionNotFound txStr), st)
        | some conn =>
          match qeval query params (dbAt st conn.path ++ conn.pending) with
          | .error e => (.error (.rusqlite e), st)
          | .ok (cols, rows) => (rowsToMaps cols rows, st)
    | none =>
      match lookupA st.connections dbAlias with
      | none => (.error (.databaseNotLoaded dbAlias), st)
      | some info =>
        match openRes with
        | some e => (.error (.connectionFailed info.path e), st)
        | none =>
          match qeval query params (dbAt st info.path) with
          | .error e => (.error (.rusqlite e), st)
          | .ok (cols, rows) =>
            match rowsToMaps cols rows with
            | .error e => (.error e, st)
            | .ok maps =>
              match closeRes with
              | some e =>
                (.error (.connectionFailed info.path
                    ("Failed to close connection after non-TX select: " ++ e)), st)
              | none => (.ok maps, st)

/-- Embedding of the `migrate` command (`src/commands.rs`, lines 413-448).
`migRes` is the migration runner's `to_version` result, which the code
discards (`let _ = ...`); on runner success the file records the migration
application, on runner failure it is left unchanged. -/
def migrate (st : AppState) (version : ℕ) (db : String)
    (openRes : Option String) (migRes : Except String Unit)
    (closeRes : Option String) :
    Except Error Unit × AppState :=
  match lookupA st.connections db with
  | none => (.error (.databaseNotLoaded db), st)
  | some info =>
    match openRes with
    | some e => (.error (.connectionFailed info.path e), st)
    | none =>
      let st' :=
        match migRes with
        | .ok _ => setDb st info.path (dbAt st info.path ++ [Stmt.mig version])
        | .error _ => st
      match closeRes with
      | some e =>
        (.error (.connectionFailed info.path
            ("MDQ0NVDT9BZGG: Failed to close connection." ++ e)), st')
      | none => (.ok (), st')

/-! ### Operation traces -/

/-- One command invocation together with its oracle inputs, for stating
temporal properties over arbitrary interleavings of subsequent calls. -/
inductive Op where
  | loadOp (env : ProbeEnv) (db : String)
  | closeOp (db : Option String)
  | beginOp (dbAlias : String) (fresh : Uuid) (openRes busyRes beginRes : Option String)
  | commitOp (txId : String) (commitRes : Option String)
  | rollbackOp (txId : String) (rbRes : Option String)
  | execOp (dbAlias query : String) (values : List JsonValue) (txId : Option String)
      (openRes : Option String) (execRes : Except String (ℕ × ℤ)) (closeRes : Option String)
  | selectOp (dbAlias query : String) (values : List JsonValue) (txId : Option String)
      (qeval : QueryEval) (openRes closeRes : Option String)
  | migrateOp (version : ℕ) (db : String) (openRes : Option String)
      (migRes : Except String Unit) (closeRes : Option String)

/-- The state transition of one command invocation. -/
def stepOp (st : AppState) : Op → AppState
  | .loadOp env db => (load env st db).2.1
  | .closeOp db => (close st db).2
  | .beginOp a f o b g => (begin_transaction st a f o b g).2
  | .commitOp id r => (commit_transaction st id r).2
  | .rollbackOp id r => (rollback_transaction st id r).2
  | .execOp a q v t o e c => (execute st a q v t o e c).2
  | .selectOp a q v t qe o c => (select st a q v t qe o c).2
  | .migrateOp ver db o m c => (migrate st ver db o m c).2

/-- Run a sequence of command invocations. -/
def runOps (st : AppState) : List Op → AppState
  | [] => st
  | op :: ops => runOps (stepOp st op) ops

/-! ### Auxiliary definitions for the theorems -/

/-- Column-wise conversion of one raw result row. -/
def convRow : List SqlValue → Except Error (List JsonValue)
  | [] => .ok []
  | v :: vs =>
    match rusqlite_value_to_json v with
    | .error e => .error e
    | .ok j =>
      match convRow vs with
      | .error e => .error e
      | .ok js => .ok (j :: js)

/-- Duplicate removal keeping the first occurrence of each element. -/
def dedupFirst : List String → List String
  | [] => []
  | c :: cs => c :: (dedupFirst cs).filter (fun c' => c' ≠ c)

/-- Fold a list of bindings into an index map, left to right. -/
def insertAll (acc : List (String × JsonValue)) :
    List (String × JsonValue) → List (String × JsonValue)
  | [] => acc
  | (c, j) :: rest => insertAll (indexMapInsert c j acc) rest

/-- No occurrence of the statement with query text `s` (under any parameter
list) in a database. -/
def NoSqlStmt (s : String) (d : DB) : Prop := ∀ ps, Stmt.sql s ps ∉ d

/-- No database file contains the statement with query text `s`. -/
def CommittedFree (s : String) (st : AppState) : Prop := ∀ π, NoSqlStmt s (dbAt st π)

/-- No live transaction other than `u` has the statement with query text `s`
among its pending statements. -/
def OtherPendingFree (u : Uuid) (s : String) (st : AppState) : Prop :=
  ∀ v c, lookupA st.transactions v = some c → v ≠ u → NoSqlStmt s c.pending

/-- No live transaction has the statement with query text `s` pending. -/
def AllPendingFree (s : String) (st : AppState) : Prop :=
  ∀ v c, lookupA st.transactions v = some c → NoSqlStmt s c.pending

/-- The operation is an `execute` invocation of the query text `s`. -/
def ExecutesStmt (s : String) (op : Op) : Prop :=
  ∃ a vals t o e c, op = .execOp a s vals t o e c

/-- The operation is a `commit_transaction` invocation whose identifier parses
to `u` and whose engine-level `COMMIT` succeeds. -/
def SuccessfulCommitOf (u : Uuid) (op : Op) : Prop :=
  ∃ id, op = .commitOp id none ∧ uuidFromStr id = some u

/-! ## Lemmas: association-list maps -/

theorem lookupA_insertA_self {κ α : Type} [DecidableEq κ] (k : κ) (v : α)
    (m : List (κ × α)) : lookupA (insertA k v m) k = some v := by
  simp [insertA, lookupA]

theorem lookupA_eraseA {κ α : Type} [DecidableEq κ] (k k' : κ) (m : List (κ × α)) :
    lookupA (eraseA k m) k' = if k = k' then none else lookupA m k' := by
  induction m with
  | nil => simp [eraseA, lookupA]
  | cons p rest ih =>
    obtain ⟨k₀, v₀⟩ := p
    by_cases h₀ : k₀ = k
    · subst h₀
      have he : eraseA k₀ ((k₀, v₀) :: rest) = eraseA k₀ rest := by
        simp [eraseA]
      rw [he, ih]
      by_cases h₁ : k₀ = k'
      · simp [h₁]
      · simp [h₁, lookupA]
    · have he : eraseA k ((k₀, v₀) :: rest) = (k₀, v₀) :: eraseA k rest := by
        simp [eraseA, h₀]
      rw [he]
      by_cases h₁ : k₀ = k'
      · have hk : ¬(k = k') := fun h => h₀ (h₁ ▸ h.symm ▸ rfl)
        simp [lookupA, h₁, hk]
      · simp [lookupA, h₁, ih]

theorem lookupA_eraseA_self {κ α : Type} [DecidableEq κ] (k : κ) (m : List (κ × α)) :
    lookupA (eraseA k m) k = none := by
  simp [lookupA_eraseA]

theorem lookupA_eraseA_ne {κ α : Type} [DecidableEq κ] {k k' : κ} (m : List (κ × α))
    (h : k ≠ k') : lookupA (eraseA k m) k' = lookupA m k' := by
  simp [lookupA_eraseA, h]

theorem lookupA_insertA_ne {κ α : Type} [DecidableEq κ] (v : α) {k k' : κ}
    (m : List (κ × α)) (h : k ≠ k') :
    lookupA (insertA k v m) k' = lookupA m k' := by
  simp [insertA, lookupA, h, lookupA_eraseA_ne m h]

theorem dbAt_setDb_self (st : AppState) (p : DbPath) (d : DB) :
    dbAt (setDb st p d) p = d := by
  simp [dbAt, setDb, lookupA_insertA_self]

theorem dbAt_setDb_ne (st : AppState) {p p' : DbPath} (d : DB) (h : p ≠ p') :
    dbAt (setDb st p d) p' = dbAt st p' := by
  simp [dbAt, setDb, lookupA_insertA_ne _ _ h]

/-! ## Lemmas: state shapes of the commands -/

theorem select_state_eq (st : AppState) (a q : String) (v : List JsonValue)
    (t : Option String) (qe : QueryEval) (o c : Option String) :
    (select st a q v t qe o c).2 = st := by
  unfold select
  (repeat' split) <;> rfl

theorem load_registries_eq (env : ProbeEnv) (st : AppState) (db : String) :
    (load env st db).2.1.committed = st.committed ∧
    (load env st db).2.1.transactions = st.transactions := by
  unfold load
  (repeat' split) <;> exact ⟨rfl, rfl⟩

theorem close_registries_eq (st : AppState) (db : Option String) :
    (close st db).2.committed = st.committed ∧
    (close st db).2.transactions = st.transactions := by
  unfold close
  (repeat' split) <;> exact ⟨rfl, rfl⟩

theorem begin_state_cases (st : AppState) (a : String) (fresh : Uuid)
    (o b g : Option String) :
    (begin_transaction st a fresh o b g).2.committed = st.committed ∧
    (begin_transaction st a fresh o b g).2.connections = st.connections ∧
    ((begin_transaction st a fresh o b g).2.transactions = st.transactions ∨
      ∃ info, lookupA st.connections a = some info ∧
        (begin_transaction st a fresh o b g).2.transactions =
          insertA fresh ⟨info.path, []⟩ st.transactions) := by
  unfold begin_transaction
  cases hl : lookupA st.connections a with
  | none => exact ⟨rfl, rfl, Or.inl rfl⟩
  | some info =>
    cases o with
    | some e => exact ⟨rfl, rfl, Or.inl rfl⟩
    | none =>
      cases b with
      | some e => exact ⟨rfl, rfl, Or.inl rfl⟩
      | none =>
        cases g with
        | some e => exact ⟨rfl, rfl, Or.inl rfl⟩
        | none => exact ⟨rfl, rfl, Or.inr ⟨info, rfl, rfl⟩⟩

theorem rollback_state_cases (st : AppState) (id : String) (r : Option String) :
    (rollback_transaction st id r).2 = st ∨
    ∃ u, uuidFromStr id = some u ∧
      (rollback_transaction st id r).2 =
        { st with transactions := eraseA u st.transactions } := by
  cases hp : uuidFromStr id with
  | none => simp [rollback_transaction, hp]
  | some u =>
    cases hl : lookupA st.transactions u with
    | none => simp [rollback_transaction, hp, hl]
    | some conn =>
      refine Or.inr ⟨u, rfl, ?_⟩
      simp [rollback_transaction, hp, hl]

theorem commit_state_cases (st : AppState) (id : String) (r : Option String) :
    (commit_transaction st id r).2 = st ∨
    ∃ u conn, uuidFromStr id = some u ∧ lookupA st.transactions u = some conn ∧
      ((commit_transaction st id r).2 =
          { st with transactions := eraseA u st.transactions } ∨
        (r = none ∧ (commit_transaction st id r).2 =
          setDb { st with transactions := eraseA u st.transactions } conn.path
            (dbAt st conn.path ++ conn.pending))) := by
  cases hp : uuidFromStr id with
  | none => simp [commit_transaction, hp]
  | some u =>
    cases hl : lookupA st.transactions u with
    | none => simp [commit_transaction, hp, hl]
    | some conn =>
      cases r with
      | some e =>
        refine Or.inr ⟨u, conn, rfl, hl, Or.inl ?_⟩
        simp [commit_transaction, hp, hl]
      | none =>
        refine Or.inr ⟨u, conn, rfl, hl, Or.inr ⟨rfl, ?_⟩⟩
        simp [commit_transaction, hp, hl, dbAt]

theorem execute_state_cases (st : AppState) (a q : String) (vals : List JsonValue)
    (t : Option String) (o : Option String) (e : Except String (ℕ × ℤ))
    (c : Option String) :
    (execute st a q vals t o e c).2 = st ∨
    (∃ txStr u conn params, t = some txStr ∧ uuidFromStr txStr = some u ∧
      lookupA st.transactions u = some conn ∧
      json_to_rusqlite_params vals = .ok params ∧
      (execute st a q vals t o e c).2 =
        { st with transactions :=
            insertA u ⟨conn.path, conn.pending ++ [Stmt.sql q params]⟩ st.transactions }) ∨
    (t = none ∧ ∃ info params, lookupA st.connections a = some info ∧
      json_to_rusqlite_params vals = .ok params ∧
      (execute st a q vals t o e c).2 =
        setDb st info.path (dbAt st info.path ++ [Stmt.sql q params])) := by
  cases hv : json_to_rusqlite_params vals with
  | error err => simp [execute, hv]
  | ok params =>
    cases t with
    | some txStr =>
      cases hp : uuidFromStr txStr with
      | none => simp [execute, hv, hp]
      | some u =>
        cases hl : lookupA st.transactions u with
        | none => simp [execute, hv, hp, hl]
        | some conn =>
          cases e with
          | error msg => simp [execute, hv, hp, hl]
          | ok r =>
            refine Or.inr (Or.inl ⟨txStr, u, conn, params, rfl, hp, hl, rfl, ?_⟩)
            simp [execute, hv, hp, hl]
    | none =>
      cases hl : lookupA st.connections a with
      | none => simp [execute, hv, hl]
      | some info =>
        cases o with
        | some msg => simp [execute, hv, hl]
        | none =>
          cases e with
          | error msg => simp [execute, hv, hl]
          | ok r =>
            cases c with
            | some msg =>
              refine Or.inr (Or.inr ⟨rfl, info, params, rfl, rfl, ?_⟩)
              simp [execute, hv, hl]
            | none =>
              refine Or.inr (Or.inr ⟨rfl, info, params, rfl, rfl, ?_⟩)
              simp [execute, hv, hl]

theorem migrate_state_cases (st : AppState) (v : ℕ) (db : String)
    (o : Option String) (m : Except String Unit) (c : Option String) :
    (migrate st v db o m c).2 = st ∨
    ∃ info, lookupA st.connections db = some info ∧
      (migrate st v db o m c).2 =
        setDb st info.path (dbAt st info.path ++ [Stmt.mig v]) := by
  cases hl : lookupA st.connections db with
  | none => simp [migrate, hl]
  | some info =>
    cases o with
    | some e => simp [migrate, hl]
    | none =>
      cases m with
      | error e =>
        cases c with
        | some msg => simp [migrate, hl]
        | none => simp [migrate, hl]
      | ok u =>
        cases c with
        | some msg =>
          refine Or.inr ⟨info, rfl, ?_⟩
          simp [migrate, hl]
        | none =>
          refine Or.inr ⟨info, rfl, ?_⟩
          simp [migrate, hl]

/-! ## Lemmas: select routing -/

theorem select_nonTx_congr (st₁ st₂ : AppState) (a q : String)
    (vals : List JsonValue) (qe : QueryEval) (oR cR : Option String)
    (h1 : lookupA st₁.connections a = lookupA st₂.connections a)
    (h2 : ∀ info, lookupA st₁.connections a = some info →
      dbAt st₁ info.path = dbAt st₂ info.path) :
    (select st₁ a q vals none qe oR cR).1 = (select st₂ a q vals none qe oR cR).1 := by
  cases hv : json_to_rusqlite_params vals with
  | error e => simp [select, hv]
  | ok params =>
    cases hl : lookupA st₁.connections a with
    | none =>
      have hl2 : lookupA st₂.connections a = none := by rw [← h1, hl]
      simp [select, hv, hl, hl2]
    | some info =>
      have hl2 : lookupA st₂.connections a = some info := by rw [← h1, hl]
      have hdb : dbAt st₁ info.path = dbAt st₂ info.path := h2 info hl
      cases oR with
      | some e => simp [select, hv, hl, hl2]
      | none =>
        simp only [select, hv, hl, hl2, hdb]
        cases hq : qe q params (dbAt st₂ info.path) with
        | error e => simp [hq]
        | ok pr =>
          obtain ⟨cols, rows⟩ := pr
          cases hm : rowsToMaps cols rows with
          | error e => simp [hq, hm]
          | ok maps => cases cR <;> simp [hq, hm]

theorem select_tx_result (st : AppState) (a q : String) (vals : List JsonValue)
    (txStr : String) (qe : QueryEval) (oR cR : Option String) {u : Uuid}
    {conn : TxConn} {params : List SqlParam}
    {cols : List String} {rows : List (List SqlValue)}
    (hp : uuidFromStr txStr = some u)
    (hl : lookupA st.transactions u = some conn)
    (hv : json_to_rusqlite_params vals = .ok params)
    (hq : qe q params (dbAt st conn.path ++ conn.pending) = .ok (cols, rows)) :
    select st a q vals (some txStr) qe oR cR = (rowsToMaps cols rows, st) := by
  simp [select, hv, hp, hl, hq]

theorem rowsToMaps_forall2 (cols : List String) :
    ∀ (rows : List (List SqlValue)) (maps : List (List (String × JsonValue))),
      rowsToMaps cols rows = .ok maps →
      List.Forall₂ (fun r m => buildRowMap cols r = .ok m) rows maps := by
  intro rows
  induction rows with
  | nil =>
    intro maps h
    simp only [rowsToMaps] at h
    cases h
    exact List.Forall₂.nil
  | cons r rs ih =>
    intro maps h
    simp only [rowsToMaps] at h
    cases hb : buildRowMap cols r with
    | error e => rw [hb] at h; cases h
    | ok m =>
      rw [hb] at h
      cases hr : rowsToMaps cols rs with
      | error e => rw [hr] at h; cases h
      | ok ms =>
        rw [hr] at h
        cases h
        exact List.Forall₂.cons hb (ih ms hr)

/-! ## Lemmas: the statement-freeness invariants -/

theorem dbAt_congr {st st' : AppState} (h : st'.committed = st.committed)
    (p : DbPath) : dbAt st' p = dbAt st p := by
  simp [dbAt, h]

theorem NoSqlStmt_append {s : String} {d ext : DB} (hd : NoSqlStmt s d)
    (he : NoSqlStmt s ext) : NoSqlStmt s (d ++ ext) := by
  intro ps hmem
  rcases List.mem_append.mp hmem with h | h
  · exact hd ps h
  · exact he ps h

theorem CommittedFree_congr {s : String} {st st' : AppState}
    (h : st'.committed = st.committed) (hc : CommittedFree s st) :
    CommittedFree s st' := by
  intro π
  rw [dbAt_congr h]
  exact hc π

theorem OtherPendingFree_congr {u : Uuid} {s : String} {st st' : AppState}
    (h : st'.transactions = st.transactions) (hp : OtherPendingFree u s st) :
    OtherPendingFree u s st' := by
  intro v c hv hne
  exact hp v c (h ▸ hv) hne

theorem AllPendingFree_congr {s : String} {st st' : AppState}
    (h : st'.transactions = st.transactions) (hp : AllPendingFree s st) :
    AllPendingFree s st' := by
  intro v c hv
  exact hp v c (h ▸ hv)

theorem CommittedFree_setDb {s : String} {st₀ st : AppState} (π : DbPath)
    {ext : DB} (hcom : st₀.committed = st.committed) (hc : CommittedFree s st)
    (he : NoSqlStmt s ext) :
    CommittedFree s (setDb st₀ π (dbAt st₀ π ++ ext)) := by
  intro π'
  by_cases hπ : π = π'
  · subst hπ
    rw [dbAt_setDb_self, dbAt_congr hcom]
    exact NoSqlStmt_append (hc π) he
  · rw [dbAt_setDb_ne _ _ hπ, dbAt_congr hcom]
    exact hc π'

theorem OtherPendingFree_eraseA {u v : Uuid} {s : String} {st : AppState}
    (hp : OtherPendingFree u s st) :
    OtherPendingFree u s { st with transactions := eraseA v st.transactions } := by
  intro w c hw hne
  rw [show ({ st with transactions := eraseA v st.transactions } : AppState).transactions
      = eraseA v st.transactions from rfl, lookupA_eraseA] at hw
  by_cases hv : v = w
  · simp [hv] at hw
  · rw [if_neg hv] at hw
    exact hp w c hw hne

theorem AllPendingFree_eraseA {v : Uuid} {s : String} {st : AppState}
    (hp : AllPendingFree s st) :
    AllPendingFree s { st with transactions := eraseA v st.transactions } := by
  intro w c hw
  rw [show ({ st with transactions := eraseA v st.transactions } : AppState).transactions
      = eraseA v st.transactions from rfl, lookupA_eraseA] at hw
  by_cases hv : v = w
  · simp [hv] at hw
  · rw [if_neg hv] at hw
    exact hp w c hw

theorem NoSqlStmt_nil {s : String} : NoSqlStmt s [] := by
  intro ps h
  simp at h

theorem NoSqlStmt_sql_singleton {s q : String} (hqs : q ≠ s) (params : List SqlParam) :
    NoSqlStmt s [Stmt.sql q params] := by
  intro ps h
  simp at h
  exact hqs (h.1.symm)

theorem NoSqlStmt_mig_singleton {s : String} (v : ℕ) :
    NoSqlStmt s [Stmt.mig v] := by
  intro ps h
  simp at h

theorem stepOp_preserves_A {u : Uuid} {s : String} (st : AppState) (op : Op)
    (hc : CommittedFree s st) (hp : OtherPendingFree u s st)
    (hex : ¬ ExecutesStmt s op) (hco : ¬ SuccessfulCommitOf u op) :
    CommittedFree s (stepOp st op) ∧ OtherPendingFree u s (stepOp st op) := by
  cases op with
  | loadOp env db =>
    obtain ⟨h1, h2⟩ := load_registries_eq env st db
    exact ⟨CommittedFree_congr h1 hc, OtherPendingFree_congr h2 hp⟩
  | closeOp db =>
    obtain ⟨h1, h2⟩ := close_registries_eq st db
    exact ⟨CommittedFree_congr h1 hc, OtherPendingFree_congr h2 hp⟩
  | beginOp a fresh o b g =>
    show CommittedFree s (begin_transaction st a fresh o b g).2 ∧
      OtherPendingFree u s (begin_transaction st a fresh o b g).2
    obtain ⟨h1, h2, h3⟩ := begin_state_cases st a fresh o b g
    refine ⟨CommittedFree_congr h1 hc, ?_⟩
    rcases h3 with h3 | ⟨info, _, h3⟩
    · exact OtherPendingFree_congr h3 hp
    · intro v c hv hne
      rw [h3] at hv
      by_cases hf : fresh = v
      · subst hf
        rw [lookupA_insertA_self] at hv
        cases hv
        exact NoSqlStmt_nil
      · rw [lookupA_insertA_ne _ _ hf] at hv
        exact hp v c hv hne
  | commitOp id r =>
    show CommittedFree s (commit_transaction st id r).2 ∧
      OtherPendingFree u s (commit_transaction st id r).2
    rcases commit_state_cases st id r with h | ⟨u', conn, hpu, hlk, h | ⟨hr, h⟩⟩
    · rw [h]; exact ⟨hc, hp⟩
    · rw [h]
      exact ⟨CommittedFree_congr rfl hc, OtherPendingFree_eraseA hp⟩
    · subst hr
      have hne : u' ≠ u := by
        intro hctr
        exact hco ⟨id, rfl, hctr ▸ hpu⟩
      rw [h]
      constructor
      · exact CommittedFree_setDb conn.path rfl hc (hp u' conn hlk hne)
      · exact OtherPendingFree_congr rfl (OtherPendingFree_eraseA hp)
  | rollbackOp id r =>
    show CommittedFree s (rollback_transaction st id r).2 ∧
      OtherPendingFree u s (rollback_transaction st id r).2
    rcases rollback_state_cases st id r with h | ⟨u', hpu, h⟩
    · rw [h]; exact ⟨hc, hp⟩
    · rw [h]
      exact ⟨CommittedFree_congr rfl hc, OtherPendingFree_eraseA hp⟩
  | execOp a q vals t o e c =>
    have hqs : q ≠ s := by
      intro hctr
      exact hex ⟨a, vals, t, o, e, c, by rw [hctr]⟩
    show CommittedFree s (execute st a q vals t o e c).2 ∧
      OtherPendingFree u s (execute st a q vals t o e c).2
    rcases execute_state_cases st a q vals t o e c with
      h | ⟨txStr, u', conn, params, ht, hpu, hlk, hpar, h⟩ | ⟨ht, info, params, hlk, hpar, h⟩
    · rw [h]; exact ⟨hc, hp⟩
    · rw [h]
      refine ⟨CommittedFree_congr rfl hc, ?_⟩
      intro v c' hv hne
      have hv' : lookupA (insertA u' ⟨conn.path, conn.pending ++ [Stmt.sql q params]⟩
          st.transactions) v = some c' := hv
      by_cases hf : u' = v
      · subst hf
        rw [lookupA_insertA_self] at hv'
        cases hv'
        exact NoSqlStmt_append (hp u' conn hlk hne) (NoSqlStmt_sql_singleton hqs params)
      · rw [lookupA_insertA_ne _ _ hf] at hv'
        exact hp v c' hv' hne
    · rw [h]
      constructor
      · exact CommittedFree_setDb info.path rfl hc (NoSqlStmt_sql_singleton hqs params)
      · exact OtherPendingFree_congr rfl hp
  | selectOp a q vals t qe o c =>
    show CommittedFree s (select st a q vals t qe o c).2 ∧
      OtherPendingFree u s (select st a q vals t qe o c).2
    rw [select_state_eq]
    exact ⟨hc, hp⟩
  | migrateOp v db o m c =>
    show CommittedFree s (migrate st v db o m c).2 ∧
      OtherPendingFree u s (migrate st v db o m c).2
    rcases migrate_state_cases st v db o m c with h | ⟨info, hlk, h⟩
    · rw [h]; exact ⟨hc, hp⟩
    · rw [h]
      constructor
      · exact CommittedFree_setDb info.path rfl hc (NoSqlStmt_mig_singleton v)
      · exact OtherPendingFree_congr rfl hp

theorem stepOp_preserves_C {s : String} (st : AppState) (op : Op)
    (hc : CommittedFree s st) (hp : AllPendingFree s st)
    (hex : ¬ ExecutesStmt s op) :
    CommittedFree s (stepOp st op) ∧ AllPendingFree s (stepOp st op) := by
  cases op with
  | loadOp env db =>
    obtain ⟨h1, h2⟩ := load_registries_eq env st db
    exact ⟨CommittedFree_congr h1 hc, AllPendingFree_congr h2 hp⟩
  | closeOp db =>
    obtain ⟨h1, h2⟩ := close_registries_eq st db
    exact ⟨CommittedFree_congr h1 hc, AllPendingFree_congr h2 hp⟩
  | beginOp a fresh o b g =>
    show CommittedFree s (begin_transaction st a fresh o b g).2 ∧
      AllPendingFree s (begin_transaction st a fresh o b g).2
    obtain ⟨h1, h2, h3⟩ := begin_state_cases st a fresh o b g
    refine ⟨CommittedFree_congr h1 hc, ?_⟩
    rcases h3 with h3 | ⟨info, _, h3⟩
    · exact AllPendingFree_congr h3 hp
    · intro v c hv
      rw [h3] at hv
      by_cases hf : fresh = v
      · subst hf
        rw [lookupA_insertA_self] at hv
        cases hv
        exact NoSqlStmt_nil
      · rw [lookupA_insertA_ne _ _ hf] at hv
        exact hp v c hv
  | commitOp id r =>
    show CommittedFree s (commit_transaction st id r).2 ∧
      AllPendingFree s (commit_transaction st id r).2
    rcases commit_state_cases st id r with h | ⟨u', conn, hpu, hlk, h | ⟨hr, h⟩⟩
    · rw [h]; exact ⟨hc, hp⟩
    · rw [h]
      exact ⟨CommittedFree_congr rfl hc, AllPendingFree_eraseA hp⟩
    · rw [h]
      constructor
      · exact CommittedFree_setDb conn.path rfl hc (hp u' conn hlk)
      · exact AllPendingFree_congr rfl (AllPendingFree_eraseA hp)
  | rollbackOp id r =>
    show CommittedFree s (rollback_transaction st id r).2 ∧
      AllPendingFree s (rollback_transaction st id r).2
    rcases rollback_state_cases st id r with h | ⟨u', hpu, h⟩
    · rw [h]; exact ⟨hc, hp⟩
    · rw [h]
      exact ⟨CommittedFree_congr rfl hc, AllPendingFree_eraseA hp⟩
  | execOp a q vals t o e c =>
    have hqs : q ≠ s := by
      intro hctr
      exact hex ⟨a, vals, t, o, e, c, by rw [hctr]⟩
    show CommittedFree s (execute st a q vals t o e c).2 ∧
      AllPendingFree s (execute st a q vals t o e c).2
    rcases execute_state_cases st a q vals t o e c with
      h | ⟨txStr, u', conn, params, ht, hpu, hlk, hpar, h⟩ | ⟨ht, info, params, hlk, hpar, h⟩
    · rw [h]; exact ⟨hc, hp⟩
    · rw [h]
      refine ⟨CommittedFree_congr rfl hc, ?_⟩
      intro v c' hv
      have hv' : lookupA (insertA u' ⟨conn.path, conn.pending ++ [Stmt.sql q params]⟩
          st.transactions) v = some c' := hv
      by_cases hf : u' = v
      · subst hf
        rw [lookupA_insertA_self] at hv'
        cases hv'
        exact NoSqlStmt_append (hp u' conn hlk) (NoSqlStmt_sql_singleton hqs params)
      · rw [lookupA_insertA_ne _ _ hf] at hv'
        exact hp v c' hv'
    · rw [h]
      constructor
      · exact CommittedFree_setDb info.path rfl hc (NoSqlStmt_sql_singleton hqs params)
      · exact AllPendingFree_congr rfl hp
  | selectOp a q vals t qe o c =>
    show CommittedFree s (select st a q vals t qe o c).2 ∧
      AllPendingFree s (select st a q vals t qe o c).2
    rw [select_state_eq]
    exact ⟨hc, hp⟩
  | migrateOp v db o m c =>
    show CommittedFree s (migrate st v db o m c).2 ∧
      AllPendingFree s (migrate st v db o m c).2
    rcases migrate_state_cases st v db o m c with h | ⟨info, hlk, h⟩
    · rw [h]; exact ⟨hc, hp⟩
    · rw [h]
      constructor
      · exact CommittedFree_setDb info.path rfl hc (NoSqlStmt_mig_singleton v)
      · exact AllPendingFree_congr rfl hp

theorem runOps_preserves_A {u : Uuid} {s : String} (st : AppState) (ops : List Op)
    (hc : CommittedFree s st) (hp : OtherPendingFree u s st)
    (hex : ∀ op ∈ ops, ¬ ExecutesStmt s op)
    (hco : ∀ op ∈ ops, ¬ SuccessfulCommitOf u op) :
    CommittedFree s (runOps st ops) ∧ OtherPendingFree u s (runOps st ops) := by
  induction ops generalizing st with
  | nil => exact ⟨hc, hp⟩
  | cons op ops ih =>
    obtain ⟨hc', hp'⟩ := stepOp_preserves_A st op hc hp
      (hex op (List.mem_cons_self op ops)) (hco op (List.mem_cons_self op ops))
    exact ih (stepOp st op) hc' hp'
      (fun o ho => hex o (List.mem_cons_of_mem op ho))
      (fun o ho => hco o (List.mem_cons_of_mem op ho))

theorem stepOp_dbAt_mono (st : AppState) (op : Op) (π : DbPath) :
    ∃ ext, dbAt (stepOp st op) π = dbAt st π ++ ext := by
  cases op with
  | loadOp env db =>
    show ∃ ext, dbAt (load env st db).2.1 π = dbAt st π ++ ext
    exact ⟨[], by rw [dbAt_congr (load_registries_eq env st db).1, List.append_nil]⟩
  | closeOp db =>
    show ∃ ext, dbAt (close st db).2 π = dbAt st π ++ ext
    exact ⟨[], by rw [dbAt_congr (close_registries_eq st db).1, List.append_nil]⟩
  | beginOp a fresh o b g =>
    show ∃ ext, dbAt (begin_transaction st a fresh o b g).2 π = dbAt st π ++ ext
    exact ⟨[], by rw [dbAt_congr (begin_state_cases st a fresh o b g).1, List.append_nil]⟩
  | commitOp id r =>
    show ∃ ext, dbAt (commit_transaction st id r).2 π = dbAt st π ++ ext
    rcases commit_state_cases st id r with h | ⟨u', conn, hpu, hlk, h | ⟨hr, h⟩⟩
    · exact ⟨[], by rw [h, List.append_nil]⟩
    · refine ⟨[], ?_⟩
      rw [h, List.append_nil]
      rfl
    · rw [h]
      by_cases hπ : conn.path = π
      · subst hπ
        refine ⟨conn.pending, ?_⟩
        rw [dbAt_setDb_self]
      · refine ⟨[], ?_⟩
        rw [dbAt_setDb_ne _ _ hπ, List.append_nil]
        rfl
  | rollbackOp id r =>
    show ∃ ext, dbAt (rollback_transaction st id r).2 π = dbAt st π ++ ext
    rcases rollback_state_cases st id r with h | ⟨u', hpu, h⟩
    · exact ⟨[], by rw [h, List.append_nil]⟩
    · refine ⟨[], ?_⟩
      rw [h, List.append_nil]
      rfl
  | execOp a q vals t o e c =>
    show ∃ ext, dbAt (execute st a q vals t o e c).2 π = dbAt st π ++ ext
    rcases execute_state_cases st a q vals t o e c with
      h | ⟨txStr, u', conn, params, ht, hpu, hlk, hpar, h⟩ | ⟨ht, info, params, hlk, hpar, h⟩
    · exact ⟨[], by rw [h, List.append_nil]⟩
    · refine ⟨[], ?_⟩
      rw [h, List.append_nil]
      rfl
    · rw [h]
      by_cases hπ : info.path = π
      · subst hπ
        exact ⟨[Stmt.sql q params], by rw [dbAt_setDb_self]⟩
      · refine ⟨[], ?_⟩
        rw [dbAt_setDb_ne _ _ hπ, List.append_nil]
  | selectOp a q vals t qe o c =>
    show ∃ ext, dbAt (select st a q vals t qe o c).2 π = dbAt st π ++ ext
    exact ⟨[], by rw [select_state_eq, List.append_nil]⟩
  | migrateOp v db o m c =>
    show ∃ ext, dbAt (migrate st v db o m c).2 π = dbAt st π ++ ext
    rcases migrate_state_cases st v db o m c with h | ⟨info, hlk, h⟩
    · exact ⟨[], by rw [h, List.append_nil]⟩
    · rw [h]
      by_cases hπ : info.path = π
      · subst hπ
        exact ⟨[Stmt.mig v], by rw [dbAt_setDb_self]⟩
      · refine ⟨[], ?_⟩
        rw [dbAt_setDb_ne _ _ hπ, List.append_nil]

theorem runOps_dbAt_mono (st : AppState) (ops : List Op) (π : DbPath) {x : Stmt}
    (hx : x ∈ dbAt st π) : x ∈ dbAt (runOps st ops) π := by
  induction ops generalizing st with
  | nil => exact hx
  | cons op ops ih =>
    obtain ⟨ext, hext⟩ := stepOp_dbAt_mono st op π
    exact ih (stepOp st op) (by rw [hext]; exact List.mem_append_left _ hx)

theorem runOps_preserves_C {s : String} (st : AppState) (ops : List Op)
    (hc : CommittedFree s st) (hp : AllPendingFree s st)
    (hex : ∀ op ∈ ops, ¬ ExecutesStmt s op) :
    CommittedFree s (runOps st ops) ∧ AllPendingFree s (runOps st ops) := by
  induction ops generalizing st with
  | nil => exact ⟨hc, hp⟩
  | cons op ops ih =>
    obtain ⟨hc', hp'⟩ := stepOp_preserves_C st op hc hp
      (hex op (List.mem_cons_self op ops))
    exact ih (stepOp st op) hc' hp'
      (fun o ho => hex o (List.mem_cons_of_mem op ho))

/-! ## Lemmas: UTF-8 lossy decoding -/

theorem utf8DecodeLossy_encodeChar {c : ℕ} (h : IsScalar c) (rest : List ℕ) :
    utf8DecodeLossy (utf8EncodeChar c ++ rest) = c :: utf8DecodeLossy rest := by
  by_cases h1 : c < 0x80
  · rw [show utf8EncodeChar c = [c] from by simp [utf8EncodeChar, h1]]
    rw [utf8DecodeLossy.eq_def]
    simp [h1]
  · by_cases h2 : c < 0x800
    · rw [show utf8EncodeChar c = [0xC0 + c / 64, 0x80 + c % 64] from by
        simp [utf8EncodeChar, h1, h2]]
      have f1 : ¬(0xC0 + c / 64 < 0x80) := by omega
      have f2 : ¬(0xC0 + c / 64 < 0xC2) := by omega
      have f3 : 0xC0 + c / 64 ≤ 0xDF := by omega
      have f4 : contByte (0x80 + c % 64) = true := by
        simp only [contByte, Bool.and_eq_true, decide_eq_true_eq]
        omega
      rw [utf8DecodeLossy.eq_def]
      simp [f1, f2, f3, f4]
      omega
    · by_cases h3 : c < 0x10000
      · have hs : c < 0xD800 ∨ 0xE000 ≤ c := by
          rcases h with h | ⟨h4, _⟩
          · exact Or.inl h
          · exact Or.inr h4
        rw [show utf8EncodeChar c =
            [0xE0 + c / 4096, 0x80 + c / 64 % 64, 0x80 + c % 64] from by
          simp [utf8EncodeChar, h1, h2, h3]]
        have f1 : ¬(0xE0 + c / 4096 < 0x80) := by omega
        have f2 : ¬(0xE0 + c / 4096 < 0xC2) := by omega
        have f3 : ¬(0xE0 + c / 4096 ≤ 0xDF) := by omega
        have f4 : 0xE0 + c / 4096 ≤ 0xEF := by omega
        have f5 : valid3Second (0xE0 + c / 4096) (0x80 + c / 64 % 64) = true := by
          simp only [valid3Second, contByte]
          split_ifs with g1 g2 <;>
            simp only [Bool.and_eq_true, decide_eq_true_eq] <;> omega
        have f6 : contByte (0x80 + c % 64) = true := by
          simp only [contByte, Bool.and_eq_true, decide_eq_true_eq]
          omega
        rw [utf8DecodeLossy.eq_def]
        simp [f1, f2, f3, f4, f5, f6]
        omega
      · have h4 : c < 0x110000 := by
          rcases h with h | ⟨_, h5⟩
          · omega
          · exact h5
        rw [show utf8EncodeChar c =
            [0xF0 + c / 0x40000, 0x80 + c / 4096 % 64, 0x80 + c / 64 % 64,
              0x80 + c % 64] from by
          simp [utf8EncodeChar, h1, h2, h3]]
        have f1 : ¬(0xF0 + c / 0x40000 < 0x80) := by omega
        have f2 : ¬(0xF0 + c / 0x40000 < 0xC2) := by omega
        have f3 : ¬(0xF0 + c / 0x40000 ≤ 0xDF) := by omega
        have f4 : ¬(0xF0 + c / 0x40000 ≤ 0xEF) := by omega
        have f5 : 0xF0 + c / 0x40000 ≤ 0xF4 := by omega
        have f6 : valid4Second (0xF0 + c / 0x40000) (0x80 + c / 4096 % 64) = true := by
          simp only [valid4Second, contByte]
          split_ifs with g1 g2 <;>
            simp only [Bool.and_eq_true, decide_eq_true_eq] <;> omega
        have f7 : contByte (0x80 + c / 64 % 64) = true := by
          simp only [contByte, Bool.and_eq_true, decide_eq_true_eq]
          omega
        have f8 : contByte (0x80 + c % 64) = true := by
          simp only [contByte, Bool.and_eq_true, decide_eq_true_eq]
          omega
        rw [utf8DecodeLossy.eq_def]
        simp [f1, f2, f3, f4, f5, f6, f7, f8]
        omega

theorem contByte_facts {b : ℕ} (h : contByte b = true) : 0x80 ≤ b ∧ b ≤ 0xBF := by
  simpa [contByte, Bool.and_eq_true, decide_eq_true_eq] using h

theorem valid3Second_facts {b0 b1 : ℕ} (h : valid3Second b0 b1 = true) :
    (b0 = 0xE0 ∧ 0xA0 ≤ b1 ∧ b1 ≤ 0xBF) ∨ (b0 = 0xED ∧ 0x80 ≤ b1 ∧ b1 ≤ 0x9F) ∨
    (b0 ≠ 0xE0 ∧ b0 ≠ 0xED ∧ 0x80 ≤ b1 ∧ b1 ≤ 0xBF) := by
  simp only [valid3Second] at h
  split_ifs at h with g1 g2
  · exact Or.inl ⟨g1, by simpa [Bool.and_eq_true, decide_eq_true_eq] using h⟩
  · exact Or.inr (Or.inl ⟨g2, by simpa [Bool.and_eq_true, decide_eq_true_eq] using h⟩)
  · exact Or.inr (Or.inr ⟨g1, g2, contByte_facts h⟩)

theorem valid4Second_facts {b0 b1 : ℕ} (h : valid4Second b0 b1 = true) :
    (b0 = 0xF0 ∧ 0x90 ≤ b1 ∧ b1 ≤ 0xBF) ∨ (b0 = 0xF4 ∧ 0x80 ≤ b1 ∧ b1 ≤ 0x8F) ∨
    (b0 ≠ 0xF0 ∧ b0 ≠ 0xF4 ∧ 0x80 ≤ b1 ∧ b1 ≤ 0xBF) := by
  simp only [valid4Second] at h
  split_ifs at h with g1 g2
  · exact Or.inl ⟨g1, by simpa [Bool.and_eq_true, decide_eq_true_eq] using h⟩
  · exact Or.inr (Or.inl ⟨g2, by simpa [Bool.and_eq_true, decide_eq_true_eq] using h⟩)
  · exact Or.inr (Or.inr ⟨g1, g2, contByte_facts h⟩)

theorem IsUtf8_nil : IsUtf8 [] := ⟨[], by simp, by simp [utf8Encode]⟩

theorem IsUtf8_consChar {cp : ℕ} {bs : List ℕ} (hsc : IsScalar cp) (h : IsUtf8 bs) :
    IsUtf8 (utf8EncodeChar cp ++ bs) := by
  obtain ⟨cs, hall, henc⟩ := h
  refine ⟨cp :: cs, ?_, ?_⟩
  · intro x hx
    rcases List.mem_cons.mp hx with rfl | hx
    · exact hsc
    · exact hall x hx
  · rw [show utf8Encode (cp :: cs) = utf8EncodeChar cp ++ utf8Encode cs from by
      simp [utf8Encode], henc]

theorem utf8DecodeLossy_encode {cs : List ℕ} (h : ∀ c ∈ cs, IsScalar c) :
    utf8DecodeLossy (utf8Encode cs) = cs := by
  induction cs with
  | nil => simp [utf8Encode, utf8DecodeLossy]
  | cons c cs ih =>
    have hc : IsScalar c := h c (List.mem_cons_self c cs)
    have hcs : ∀ c' ∈ cs, IsScalar c' := fun c' h' => h c' (List.mem_cons_of_mem c h')
    rw [show utf8Encode (c :: cs) = utf8EncodeChar c ++ utf8Encode cs from by
      simp [utf8Encode]]
    rw [utf8DecodeLossy_encodeChar hc, ih hcs]

theorem noFFFD_isUtf8 :
    ∀ n (bs : List ℕ), bs.length ≤ n →
      replacementChar ∉ utf8DecodeLossy bs → IsUtf8 bs := by
  intro n
  induction n with
  | zero =>
    intro bs hlen _
    rw [List.length_eq_zero.mp (Nat.le_zero.mp hlen)]
    exact IsUtf8_nil
  | succ n ih =>
    intro bs hlen hno
    match bs with
    | [] => exact IsUtf8_nil
    | b0 :: rest =>
      by_cases h1 : b0 < 0x80
      · have hdec : utf8DecodeLossy (b0 :: rest) = b0 :: utf8DecodeLossy rest := by
          rw [utf8DecodeLossy.eq_def]
          simp [h1]
        rw [hdec] at hno
        have hrest := ih rest (by simp at hlen; omega)
          (fun hmem => hno (List.mem_cons_of_mem _ hmem))
        have hsc : IsScalar b0 := Or.inl (by omega)
        have := IsUtf8_consChar hsc hrest
        rw [show utf8EncodeChar b0 = [b0] from by simp [utf8EncodeChar, h1]] at this
        simpa using this
      · by_cases h2 : b0 < 0xC2
        · have hdec : utf8DecodeLossy (b0 :: rest) =
              replacementChar :: utf8DecodeLossy rest := by
            rw [utf8DecodeLossy.eq_def]
            simp [h1, h2]
          rw [hdec] at hno
          exact absurd (List.mem_cons_self _ _) hno
        · by_cases h3 : b0 ≤ 0xDF
          · match rest with
            | [] =>
              have hdec : utf8DecodeLossy [b0] = [replacementChar] := by
                rw [utf8DecodeLossy.eq_def]
                simp [h1, h2, h3]
              rw [hdec] at hno
              exact absurd (List.mem_cons_self _ _) hno
            | b1 :: rest' =>
              by_cases hcont : contByte b1 = true
              · have hdec : utf8DecodeLossy (b0 :: b1 :: rest') =
                    ((b0 - 0xC0) * 64 + (b1 - 0x80)) :: utf8DecodeLossy rest' := by
                  rw [utf8DecodeLossy.eq_def]
                  simp [h1, h2, h3, hcont]
                rw [hdec] at hno
                obtain ⟨hb1a, hb1b⟩ := contByte_facts hcont
                have hrest := ih rest' (by simp at hlen; omega)
                  (fun hmem => hno (List.mem_cons_of_mem _ hmem))
                have hsc : IsScalar ((b0 - 0xC0) * 64 + (b1 - 0x80)) :=
                  Or.inl (by omega)
                have hstep := IsUtf8_consChar hsc hrest
                have henc : utf8EncodeChar ((b0 - 0xC0) * 64 + (b1 - 0x80)) =
                    [b0, b1] := by
                  have hA : ¬((b0 - 0xC0) * 64 + (b1 - 0x80) < 0x80) := by omega
                  have hB : (b0 - 0xC0) * 64 + (b1 - 0x80) < 0x800 := by omega
                  simp only [utf8EncodeChar, hA, hB, if_true, if_false,
                    ite_true, ite_false, List.cons.injEq, and_true]
                  omega
                rw [henc] at hstep
                simpa using hstep
              · have hdec : utf8DecodeLossy (b0 :: b1 :: rest') =
                    replacementChar :: utf8DecodeLossy (b1 :: rest') := by
                  rw [utf8DecodeLossy.eq_def]
                  simp [h1, h2, h3, hcont]
                rw [hdec] at hno
                exact absurd (List.mem_cons_self _ _) hno
          · by_cases h4 : b0 ≤ 0xEF
            · match rest with
              | [] =>
                have hdec : utf8DecodeLossy [b0] = [replacementChar] := by
                  rw [utf8DecodeLossy.eq_def]
                  simp [h1, h2, h3, h4]
                rw [hdec] at hno
                exact absurd (List.mem_cons_self _ _) hno
              | b1 :: rest' =>
                by_cases hv3 : valid3Second b0 b1 = true
                · match rest' with
                  | [] =>
                    have hdec : utf8DecodeLossy [b0, b1] = [replacementChar] := by
                      rw [utf8DecodeLossy.eq_def]
                      simp [h1, h2, h3, h4, hv3]
                    rw [hdec] at hno
                    exact absurd (List.mem_cons_self _ _) hno
                  | b2 :: rest'' =>
                    by_cases hcont2 : contByte b2 = true
                    · have hdec : utf8DecodeLossy (b0 :: b1 :: b2 :: rest'') =
                          ((b0 - 0xE0) * 4096 + (b1 - 0x80) * 64 + (b2 - 0x80)) ::
                            utf8DecodeLossy rest'' := by
                        rw [utf8DecodeLossy.eq_def]
                        simp [h1, h2, h3, h4, hv3, hcont2]
                      rw [hdec] at hno
                      have hfacts := valid3Second_facts hv3
                      obtain ⟨hb2a, hb2b⟩ := contByte_facts hcont2
                      have hrest := ih rest'' (by simp at hlen; omega)
                        (fun hmem => hno (List.mem_cons_of_mem _ hmem))
                      have hsc : IsScalar
                          ((b0 - 0xE0) * 4096 + (b1 - 0x80) * 64 + (b2 - 0x80)) := by
                        unfold IsScalar
                        omega
                      have hstep := IsUtf8_consChar hsc hrest
                      have henc : utf8EncodeChar
                          ((b0 - 0xE0) * 4096 + (b1 - 0x80) * 64 + (b2 - 0x80)) =
                          [b0, b1, b2] := by
                        have hA : ¬((b0 - 0xE0) * 4096 + (b1 - 0x80) * 64 +
                            (b2 - 0x80) < 0x80) := by omega
                        have hB : ¬((b0 - 0xE0) * 4096 + (b1 - 0x80) * 64 +
                            (b2 - 0x80) < 0x800) := by omega
                        have hC : (b0 - 0xE0) * 4096 + (b1 - 0x80) * 64 +
                            (b2 - 0x80) < 0x10000 := by omega
                        simp only [utf8EncodeChar, hA, hB, hC, if_true, if_false,
                          ite_true, ite_false, List.cons.injEq, and_true]
                        omega
                      rw [henc] at hstep
                      simpa using hstep
                    · have hdec : utf8DecodeLossy (b0 :: b1 :: b2 :: rest'') =
                          replacementChar :: utf8DecodeLossy (b2 :: rest'') := by
                        rw [utf8DecodeLossy.eq_def]
                        simp [h1, h2, h3, h4, hv3, hcont2]
                      rw [hdec] at hno
                      exact absurd (List.mem_cons_self _ _) hno
                · have hdec : utf8DecodeLossy (b0 :: b1 :: rest') =
                      replacementChar :: utf8DecodeLossy (b1 :: rest') := by
                    rw [utf8DecodeLossy.eq_def]
                    simp [h1, h2, h3, h4, hv3]
                  rw [hdec] at hno
                  exact absurd (List.mem_cons_self _ _) hno
            · by_cases h5 : b0 ≤ 0xF4
              · match rest with
                | [] =>
                  have hdec : utf8DecodeLossy [b0] = [replacementChar] := by
                    rw [utf8DecodeLossy.eq_def]
                    simp [h1, h2, h3, h4, h5]
                  rw [hdec] at hno
                  exact absurd (List.mem_cons_self _ _) hno
                | b1 :: rest' =>
                  by_cases hv4 : valid4Second b0 b1 = true
                  · match rest' with
                    | [] =>
                      have hdec : utf8DecodeLossy [b0, b1] = [replacementChar] := by
                        rw [utf8DecodeLossy.eq_def]
                        simp [h1, h2, h3, h4, h5, hv4]
                      rw [hdec] at hno
                      exact absurd (List.mem_cons_self _ _) hno
                    | b2 :: rest'' =>
                      by_cases hcont2 : contByte b2 = true
                      · match rest'' with
                        | [] =>
                          have hdec : utf8DecodeLossy [b0, b1, b2] =
                              [replacementChar] := by
                            rw [utf8DecodeLossy.eq_def]
                            simp [h1, h2, h3, h4, h5, hv4, hcont2]
                          rw [hdec] at hno
                          exact absurd (List.mem_cons_self _ _) hno
                        | b3 :: rest''' =>
                          by_cases hcont3 : contByte b3 = true
                          · have hdec :
                                utf8DecodeLossy (b0 :: b1 :: b2 :: b3 :: rest''') =
                                ((b0 - 0xF0) * 0x40000 + (b1 - 0x80) * 4096 +
                                    (b2 - 0x80) * 64 + (b3 - 0x80)) ::
                                  utf8DecodeLossy rest''' := by
                              rw [utf8DecodeLossy.eq_def]
                              simp [h1, h2, h3, h4, h5, hv4, hcont2, hcont3]
                            rw [hdec] at hno
                            have hfacts := valid4Second_facts hv4
                            obtain ⟨hb2a, hb2b⟩ := contByte_facts hcont2
                            obtain ⟨hb3a, hb3b⟩ := contByte_facts hcont3
                            have hrest := ih rest''' (by simp at hlen; omega)
                              (fun hmem => hno (List.mem_cons_of_mem _ hmem))
                            have hsc : IsScalar
                                ((b0 - 0xF0) * 0x40000 + (b1 - 0x80) * 4096 +
                                  (b2 - 0x80) * 64 + (b3 - 0x80)) := by
                              unfold IsScalar
                              omega
                            have hstep := IsUtf8_consChar hsc hrest
                            have henc : utf8EncodeChar
                                ((b0 - 0xF0) * 0x40000 + (b1 - 0x80) * 4096 +
                                  (b2 - 0x80) * 64 + (b3 - 0x80)) =
                                [b0, b1, b2, b3] := by
                              have hA : ¬((b0 - 0xF0) * 0x40000 + (b1 - 0x80) * 4096 +
                                  (b2 - 0x80) * 64 + (b3 - 0x80) < 0x80) := by omega
                              have hB : ¬((b0 - 0xF0) * 0x40000 + (b1 - 0x80) * 4096 +
                                  (b2 - 0x80) * 64 + (b3 - 0x80) < 0x800) := by omega
                              have hC : ¬((b0 - 0xF0) * 0x40000 + (b1 - 0x80) * 4096 +
                                  (b2 - 0x80) * 64 + (b3 - 0x80) < 0x10000) := by omega
                              simp only [utf8EncodeChar, hA, hB, hC, if_true, if_false,
                                ite_true, ite_false, List.cons.injEq, and_true]
                              omega
                            rw [henc] at hstep
                            simpa using hstep
                          · have hdec :
                                utf8DecodeLossy (b0 :: b1 :: b2 :: b3 :: rest''') =
                                replacementChar ::
                                  utf8DecodeLossy (b3 :: rest''') := by
                              rw [utf8DecodeLossy.eq_def]
                              simp [h1, h2, h3, h4, h5, hv4, hcont2, hcont3]
                            rw [hdec] at hno
                            exact absurd (List.mem_cons_self _ _) hno
                      · have hdec : utf8DecodeLossy (b0 :: b1 :: b2 :: rest'') =
                            replacementChar :: utf8DecodeLossy (b2 :: rest'') := by
                          rw [utf8DecodeLossy.eq_def]
                          simp [h1, h2, h3, h4, h5, hv4, hcont2]
                        rw [hdec] at hno
                        exact absurd (List.mem_cons_self _ _) hno
                  · have hdec : utf8DecodeLossy (b0 :: b1 :: rest') =
                        replacementChar :: utf8DecodeLossy (b1 :: rest') := by
                      rw [utf8DecodeLossy.eq_def]
                      simp [h1, h2, h3, h4, h5, hv4]
                    rw [hdec] at hno
                    exact absurd (List.mem_cons_self _ _) hno
              · have hdec : utf8DecodeLossy (b0 :: rest) =
                    replacementChar :: utf8DecodeLossy rest := by
                  rw [utf8DecodeLossy.eq_def]
                  simp [h1, h2, h3, h4, h5]
                rw [hdec] at hno
                exact absurd (List.mem_cons_self _ _) hno

theorem not_isUtf8_replacement {bs : List ℕ} (h : ¬ IsUtf8 bs) :
    replacementChar ∈ utf8DecodeLossy bs := by
  by_contra hno
  exact h (noFFFD_isUtf8 bs.length bs le_rfl hno)

/-! ## Lemmas: row materialization (`IndexMap` semantics) -/

theorem indexMapInsert_keys (k : String) (v : JsonValue)
    (m : List (String × JsonValue)) :
    (indexMapInsert k v m).map Prod.fst =
      if k ∈ m.map Prod.fst then m.map Prod.fst else m.map Prod.fst ++ [k] := by
  induction m with
  | nil => simp [indexMapInsert]
  | cons p rest ih =>
    obtain ⟨k₀, v₀⟩ := p
    by_cases h : k₀ = k
    · subst h
      simp [indexMapInsert]
    · simp only [indexMapInsert, if_neg h, List.map_cons, ih]
      by_cases hmem : k ∈ rest.map Prod.fst
      · simp [hmem, Ne.symm h]
      · simp [hmem, Ne.symm h]

theorem indexMapInsert_lookup (k k' : String) (v : JsonValue)
    (m : List (String × JsonValue)) :
    lookupA (indexMapInsert k v m) k' =
      if k = k' then some v else lookupA m k' := by
  induction m with
  | nil => simp [indexMapInsert, lookupA]
  | cons p rest ih =>
    obtain ⟨k₀, v₀⟩ := p
    by_cases h : k₀ = k
    · subst h
      by_cases h' : k₀ = k'
      · simp [indexMapInsert, lookupA, h']
      · simp [indexMapInsert, lookupA, h']
    · by_cases h' : k₀ = k'
      · subst h'
        have hk : ¬(k = k₀) := fun hc => h hc.symm
        simp [indexMapInsert, h, lookupA, hk]
      · simp [indexMapInsert, h, lookupA, h', ih]

theorem indexMapInsert_notMem (k : String) (v : JsonValue)
    (m : List (String × JsonValue)) (h : k ∉ m.map Prod.fst) :
    indexMapInsert k v m = m ++ [(k, v)] := by
  induction m with
  | nil => simp [indexMapInsert]
  | cons p rest ih =>
    obtain ⟨k₀, v₀⟩ := p
    simp only [List.map_cons, List.mem_cons] at h
    push_neg at h
    have hk : ¬(k₀ = k) := fun hc => h.1 hc.symm
    simp [indexMapInsert, hk, ih h.2]

theorem insertAll_append (acc : List (String × JsonValue))
    (ps : List (String × JsonValue)) (p : String × JsonValue) :
    insertAll acc (ps ++ [p]) = indexMapInsert p.1 p.2 (insertAll acc ps) := by
  induction ps generalizing acc with
  | nil => simp [insertAll]
  | cons q qs ih =>
    obtain ⟨c, j⟩ := q
    simp only [List.cons_append, insertAll]
    exact ih (indexMapInsert c j acc)

theorem mem_dedupFirst (c : String) (ks : List String) :
    c ∈ dedupFirst ks ↔ c ∈ ks := by
  induction ks with
  | nil => simp [dedupFirst]
  | cons k ks ih =>
    simp only [dedupFirst, List.mem_cons, List.mem_filter]
    constructor
    · rintro (rfl | ⟨h, _⟩)
      · exact Or.inl rfl
      · exact Or.inr (ih.mp h)
    · rintro (rfl | h)
      · exact Or.inl rfl
      · by_cases hc : c = k
        · exact Or.inl hc
        · exact Or.inr ⟨ih.mpr h, by simpa using hc⟩

theorem dedupFirst_append_singleton (ks : List String) (c : String) :
    dedupFirst (ks ++ [c]) =
      if c ∈ ks then dedupFirst ks else dedupFirst ks ++ [c] := by
  induction ks with
  | nil => simp [dedupFirst]
  | cons k ks ih =>
    show k :: (dedupFirst (ks ++ [c])).filter (fun c' => c' ≠ k) = _
    rw [ih]
    by_cases hmem : c ∈ ks
    · rw [if_pos hmem, if_pos (List.mem_cons_of_mem k hmem)]
      rfl
    · rw [if_neg hmem]
      by_cases hck : c = k
      · subst hck
        rw [if_pos (List.mem_cons_self c ks), List.filter_append]
        simp [dedupFirst]
      · rw [if_neg (by simp [hck, hmem]), List.filter_append]
        simp [dedupFirst, hck]

theorem insertAll_keys (ps : List (String × JsonValue)) :
    (insertAll [] ps).map Prod.fst = dedupFirst (ps.map Prod.fst) := by
  induction ps using List.reverseRecOn with
  | nil => simp [insertAll, dedupFirst]
  | append_singleton ps p ih =>
    obtain ⟨c, j⟩ := p
    rw [insertAll_append, indexMapInsert_keys, ih]
    rw [show (ps ++ [(c, j)]).map Prod.fst = ps.map Prod.fst ++ [c] from by simp]
    rw [dedupFirst_append_singleton]
    by_cases hmem : c ∈ ps.map Prod.fst
    · simp [hmem, (mem_dedupFirst c _).mpr hmem]
    · have h2 : c ∉ dedupFirst (ps.map Prod.fst) :=
        fun hc => hmem ((mem_dedupFirst c _).mp hc)
      simp [hmem, h2]

theorem insertAll_lookup (ps : List (String × JsonValue)) (c : String) :
    lookupA (insertAll [] ps) c = lookupA ps.reverse c := by
  induction ps using List.reverseRecOn with
  | nil => simp [insertAll]
  | append_singleton ps p ih =>
    obtain ⟨c₀, j₀⟩ := p
    rw [insertAll_append, indexMapInsert_lookup, List.reverse_append]
    simp only [List.reverse_cons, List.reverse_nil, List.nil_append,
      List.singleton_append, lookupA]
    rw [ih]
    simp

theorem get?_eq_head?_drop {α : Type} (l : List α) (i : ℕ) :
    l.get? i = (l.drop i).head? := by
  rw [List.get?_eq_getElem?, List.head?_eq_getElem?, List.getElem?_drop]
  simp

theorem buildRowMapAux_spec (cols : List String) :
    ∀ (row : List SqlValue) (i : ℕ) (jrest : List JsonValue)
      (acc : List (String × JsonValue)),
      convRow (row.drop i) = .ok jrest → (row.drop i).length = cols.length →
      buildRowMapAux row i cols acc = .ok (insertAll acc (cols.zip jrest)) := by
  induction cols with
  | nil =>
    intro row i jrest acc hconv hlen
    rw [List.length_eq_zero.mp hlen] at hconv
    have hj : jrest = [] := by
      simpa [convRow] using hconv.symm
    subst hj
    simp [buildRowMapAux, insertAll]
  | cons c cs ih =>
    intro row i jrest acc hconv hlen
    cases hd : row.drop i with
    | nil =>
      rw [hd] at hlen
      simp at hlen
    | cons v rest =>
      rw [hd] at hconv hlen
      have hget : row.get? i = some v := by
        rw [get?_eq_head?_drop, hd]
        rfl
      cases hcv : rusqlite_value_to_json v with
      | error e => simp [convRow, hcv] at hconv
      | ok j =>
        cases hcr : convRow rest with
        | error e => simp [convRow, hcv, hcr] at hconv
        | ok js =>
          have hj : jrest = j :: js := by
            simpa [convRow, hcv, hcr] using hconv.symm
          subst hj
          have hdrop : row.drop (i + 1) = rest := by
            have hdd := List.drop_drop 1 i row
            rw [hd] at hdd
            rw [← hdd]
            rfl
          have hlen' : (row.drop (i + 1)).length = cs.length := by
            rw [hdrop]
            simpa using hlen
          have hconv' : convRow (row.drop (i + 1)) = .ok js := by
            rw [hdrop]
            exact hcr
          rw [show buildRowMapAux row i (c :: cs) acc =
              buildRowMapAux row (i + 1) cs (indexMapInsert c j acc) from by
            simp only [buildRowMapAux, hget, hcv]]
          rw [ih row (i + 1) js (indexMapInsert c j acc) hconv' hlen']
          rfl

theorem buildRowMap_spec {cols : List String} {row : List SqlValue}
    {jrow : List JsonValue} (hconv : convRow row = .ok jrow)
    (hlen : row.length = cols.length) :
    buildRowMap cols row = .ok (insertAll [] (cols.zip jrow)) :=
  buildRowMapAux_spec cols row 0 jrow [] (by simpa using hconv) (by simpa using hlen)

theorem insertAll_nodup (ps : List (String × JsonValue))
    (h : (ps.map Prod.fst).Nodup) : insertAll [] ps = ps := by
  induction ps using List.reverseRecOn with
  | nil => simp [insertAll]
  | append_singleton ps p ih =>
    obtain ⟨c, j⟩ := p
    rw [show (ps ++ [(c, j)]).map Prod.fst = ps.map Prod.fst ++ [c] from by simp]
      at h
    have h1 : (ps.map Prod.fst).Nodup := (List.nodup_append.mp h).1
    have h2 : c ∉ ps.map Prod.fst := by
      intro hc
      rcases List.nodup_append.mp h with ⟨_, _, hdisj⟩
      exact hdisj hc (by simp)
    rw [insertAll_append, ih h1, indexMapInsert_notMem _ _ _ h2]


theorem convRow_length {row : List SqlValue} :
    ∀ {jrow : List JsonValue}, convRow row = .ok jrow → jrow.length = row.length := by
  induction row with
  | nil =>
    intro jrow h
    cases h
    rfl
  | cons v vs ih =>
    intro jrow h
    rw [convRow] at h
    cases hv : rusqlite_value_to_json v with
    | error e => rw [hv] at h; cases h
    | ok j =>
      rw [hv] at h
      cases hr : convRow vs with
      | error e => rw [hr] at h; cases h
      | ok js =>
        rw [hr] at h
        cases h
        simp [ih hr]


theorem splitOnceColonList_of_not_mem {l : List Char} (h : ':' ∉ l) :
    splitOnceColonList l = none := by
  induction l with
  | nil => rfl
  | cons c cs ih =>
    simp only [List.mem_cons] at h
    push_neg at h
    have hc : ¬(c = ':') := fun hc => h.1 hc.symm
    simp [splitOnceColonList, hc, ih h.2]

theorem splitOnceColon_eq_none {s : String} (h : ':' ∉ s.data) :
    splitOnceColon s = none := by
  simp [splitOnceColon, String.toList, splitOnceColonList_of_not_mem h]

/-! ## Claim C4: load -/

/-- C4: `load` fails with the invalid-format error when the input has no
scheme separator and with the unsupported-scheme error (performing no I/O:
empty action log) when the scheme is not `sqlite`; on success it returns the
alias string unchanged and upserts the alias-to-location mapping, so loading
the same alias a second time overwrites the previous location without
erroring, and a subsequent lookup finds the new location. -/
theorem C4_load_spec :
    (∀ env (st : AppState) db, ':' ∉ db.data →
      load env st db = (.error (.invalidDatabaseUrl db), st, []))
  ∧ (∀ env (st : AppState) db k p, splitOnceColon db = some (k, p) →
      k ≠ "sqlite" →
      load env st db = (.error (.unsupportedDatabaseType k), st, []))
  ∧ (∀ env (st : AppState) db p path io,
      splitOnceColon db = some ("sqlite", p) →
      resolveDbPath env p = (.ok path, io) →
      env.openRes = none → env.closeRes = none →
      load env st db =
        (.ok db, { st with connections := insertA db ⟨path⟩ st.connections },
          io ++ [.openAct, .closeAct])
    ∧ lookupA (load env st db).2.1.connections db = some ⟨path⟩)
  ∧ (∀ env' (st : AppState) db p path' io' oldInfo,
      lookupA st.connections db = some oldInfo →
      splitOnceColon db = some ("sqlite", p) →
      resolveDbPath env' p = (.ok path', io') →
      env'.openRes = none → env'.closeRes = none →
      (load env' st db).1 = .ok db ∧
      lookupA (load env' st db).2.1.connections db = some ⟨path'⟩) := by
  have hsucc : ∀ env (st : AppState) db p path io,
      splitOnceColon db = some ("sqlite", p) →
      resolveDbPath env p = (.ok path, io) →
      env.openRes = none → env.closeRes = none →
      load env st db =
        (.ok db, { st with connections := insertA db ⟨path⟩ st.connections },
          io ++ [.openAct, .closeAct]) := by
    intro env st db p path io hs hres ho hc
    simp [load, hs, hres, ho, hc]
  refine ⟨?_, ?_, ?_, ?_⟩
  · intro env st db h
    simp [load, splitOnceColon_eq_none h]
  · intro env st db k p hs hk
    simp [load, hs, hk]
  · intro env st db p path io hs hres ho hc
    have h := hsucc env st db p path io hs hres ho hc
    refine ⟨h, ?_⟩
    rw [h]
    exact lookupA_insertA_self db ⟨path⟩ st.connections
  · intro env' st db p path' io' oldInfo hold hs hres ho hc
    have h := hsucc env' st db p path' io' hs hres ho hc
    constructor
    · rw [h]
    · rw [h]
      exact lookupA_insertA_self db ⟨path'⟩ st.connections

/-- Witness for C4 at concrete inputs: a url without separator fails, a
`mysql:` url fails with unsupported scheme and an empty I/O log, and loading
`"sqlite:a.db"` twice (with a changed base directory the second time) ends
with the alias mapped to the new location. -/
theorem C4_load_spec_witness :
    load ⟨.ok "/data", none, none, none⟩ (⟨[], [], []⟩ : AppState) "nourl" =
      (.error (.invalidDatabaseUrl "nourl"), ⟨[], [], []⟩, [])
  ∧ load ⟨.ok "/data", none, none, none⟩ (⟨[], [], []⟩ : AppState) "mysql:a" =
      (.error (.unsupportedDatabaseType "mysql"), ⟨[], [], []⟩, [])
  ∧ ((load ⟨.ok "/data2", none, none, none⟩
      ⟨[("sqlite:a.db", ⟨"/data/a.db"⟩)], [], []⟩ "sqlite:a.db").1 = .ok "sqlite:a.db"
    ∧ lookupA (load ⟨.ok "/data2", none, none, none⟩
        ⟨[("sqlite:a.db", ⟨"/data/a.db"⟩)], [], []⟩ "sqlite:a.db").2.1.connections
        "sqlite:a.db" = some ⟨"/data2/a.db"⟩) := by
  refine ⟨?_, ?_, ?_⟩
  · exact C4_load_spec.1 ⟨.ok "/data", none, none, none⟩ ⟨[], [], []⟩ "nourl"
      (by decide)
  · exact C4_load_spec.2.1 ⟨.ok "/data", none, none, none⟩ ⟨[], [], []⟩ "mysql:a"
      "mysql" "a" (by rfl) (by decide)
  · exact C4_load_spec.2.2.2 ⟨.ok "/data2", none, none, none⟩
      ⟨[("sqlite:a.db", ⟨"/data/a.db"⟩)], [], []⟩ "sqlite:a.db" "a.db"
      "/data2/a.db" [.appDataDirQ, .mkdirAct] ⟨"/data/a.db"⟩ (by rfl) (by rfl)
      (by rfl) (by rfl) (by rfl)

theorem json_to_rusqlite_param_error_shape {v : JsonValue} {e : Error}
    (h : json_to_rusqlite_param v = .error e) :
    ∃ m, e = .valueConversionError m := by
  cases v with
  | null => cases h
  | bool b => cases h
  | num n =>
    cases hi : n.asI64 with
    | some i => rw [json_to_rusqlite_param, hi] at h; cases h
    | none =>
      cases hf : n.asF64 with
      | some f => rw [json_to_rusqlite_param, hi, hf] at h; cases h
      | none =>
        rw [json_to_rusqlite_param, hi, hf] at h
        cases h
        exact ⟨_, rfl⟩
  | str s => cases h
  | arr xs =>
    cases h
    exact ⟨_, rfl⟩
  | obj kvs =>
    cases h
    exact ⟨_, rfl⟩

theorem json_to_rusqlite_params_error_shape {vs : List JsonValue} {e : Error}
    (h : json_to_rusqlite_params vs = .error e) :
    ∃ m, e = .valueConversionError m := by
  induction vs with
  | nil => cases h
  | cons v vs ih =>
    rw [json_to_rusqlite_params] at h
    cases hv : json_to_rusqlite_param v with
    | error e' =>
      rw [hv] at h
      cases h
      exact json_to_rusqlite_param_error_shape hv
    | ok p =>
      rw [hv] at h
      cases hr : json_to_rusqlite_params vs with
      | error e' =>
        rw [hr] at h
        cases h
        exact ih hr
      | ok ps => rw [hr] at h; cases h

theorem rusqlite_value_to_json_error_shape {v : SqlValue} {e : Error}
    (h : rusqlite_value_to_json v = .error e) :
    ∃ m, e = .valueConversionError m := by
  cases v with
  | null => cases h
  | integer i => cases h
  | real f =>
    cases hf : JsonNumber.fromF64 f with
    | some n => rw [rusqlite_value_to_json, hf] at h; cases h
    | none =>
      rw [rusqlite_value_to_json, hf] at h
      cases h
      exact ⟨_, rfl⟩
  | text t => cases h
  | blob b => cases h

theorem buildRowMapAux_error_shape {row : List SqlValue} :
    ∀ {i : ℕ} {cols : List String} {acc : List (String × JsonValue)} {e : Error},
      buildRowMapAux row i cols acc = .error e →
      (∃ m, e = .rusqlite m) ∨ (∃ m, e = .valueConversionError m) := by
  intro i cols
  induction cols generalizing i with
  | nil => intro acc e h; cases h
  | cons c cs ih =>
    intro acc e h
    rw [buildRowMapAux] at h
    cases hg : row.get? i with
    | none =>
      simp only [hg] at h
      cases h
      exact Or.inl ⟨_, rfl⟩
    | some v =>
      simp only [hg] at h
      cases hv : rusqlite_value_to_json v with
      | error e' =>
        simp only [hv] at h
        cases h
        exact Or.inr (rusqlite_value_to_json_error_shape hv)
      | ok j =>
        simp only [hv] at h
        exact ih h

theorem rowsToMaps_error_shape {cols : List String} :
    ∀ {rows : List (List SqlValue)} {e : Error},
      rowsToMaps cols rows = .error e →
      (∃ m, e = .rusqlite m) ∨ (∃ m, e = .valueConversionError m) := by
  intro rows
  induction rows with
  | nil => intro e h; cases h
  | cons r rs ih =>
    intro e h
    rw [rowsToMaps] at h
    cases hb : buildRowMap cols r with
    | error e' =>
      rw [hb] at h
      cases h
      exact buildRowMapAux_error_shape hb
    | ok m =>
      rw [hb] at h
      cases hr : rowsToMaps cols rs with
      | error e' =>
        rw [hr] at h
        cases h
        exact ih hr
      | ok ms => rw [hr] at h; cases h

/-! ## Claim C10: transactional routing ignores the alias registry -/

/-- C10: when a transaction id is supplied, `execute` and `select` never
consult the alias registry: their result is unchanged under arbitrary
replacement of the registry and of the supplied alias, they can never return
`DatabaseNotLoaded`, and for a live transaction id they run the statement on
the transaction's pinned connection (appending to its pending statements,
resp. querying the pinned connection's view). -/
theorem C10_tx_routing :
    (∀ (st : AppState) conns a q vals txStr o e c,
        (execute { st with connections := conns } a q vals (some txStr) o e c).1 =
          (execute st a q vals (some txStr) o e c).1
      ∧ (execute { st with connections := conns } a q vals (some txStr) o e c).2 =
          { (execute st a q vals (some txStr) o e c).2 with connections := conns })
  ∧ (∀ (st : AppState) a a' q vals txStr o e c,
      execute st a q vals (some txStr) o e c = execute st a' q vals (some txStr) o e c)
  ∧ (∀ (st : AppState) a q vals txStr o e c al,
      (execute st a q vals (some txStr) o e c).1 ≠ .error (.databaseNotLoaded al))
  ∧ (∀ (st : AppState) a q vals txStr u conn params r o c,
      uuidFromStr txStr = some u → lookupA st.transactions u = some conn →
      json_to_rusqlite_params vals = .ok params →
      execute st a q vals (some txStr) o (.ok r) c =
        (.ok r, { st with transactions := insertA u ⟨conn.path, conn.pending ++ [Stmt.sql q params]⟩ st.transactions }))
  ∧ (∀ (st : AppState) conns a q vals txStr qe o c,
      (select { st with connections := conns } a q vals (some txStr) qe o c).1 =
        (select st a q vals (some txStr) qe o c).1)
  ∧ (∀ (st : AppState) a a' q vals txStr qe o c,
      (select st a q vals (some txStr) qe o c).1 =
        (select st a' q vals (some txStr) qe o c).1)
  ∧ (∀ (st : AppState) a q vals txStr qe o c al,
      (select st a q vals (some txStr) qe o c).1 ≠ .error (.databaseNotLoaded al))
  ∧ (∀ (st : AppState) a q vals txStr u conn params cols rows qe o c,
      uuidFromStr txStr = some u → lookupA st.transactions u = some conn →
      json_to_rusqlite_params vals = .ok params →
      qe q params (dbAt st conn.path ++ conn.pending) = .ok (cols, rows) →
      select st a q vals (some txStr) qe o c = (rowsToMaps cols rows, st)) := by
  refine ⟨?_, ?_, ?_, ?_, ?_, ?_, ?_, ?_⟩
  · intro st conns a q vals txStr o e c
    cases hv : json_to_rusqlite_params vals with
    | error err => simp [execute, hv]
    | ok params =>
      cases hp : uuidFromStr txStr with
      | none => simp [execute, hv, hp]
      | some u =>
        cases hl : lookupA st.transactions u with
        | none => simp [execute, hv, hp, hl]
        | some conn =>
          cases e with
          | error msg => simp [execute, hv, hp, hl]
          | ok r => simp [execute, hv, hp, hl]
  · intro st a a' q vals txStr o e c
    cases hv : json_to_rusqlite_params vals with
    | error err => simp [execute, hv]
    | ok params =>
      cases hp : uuidFromStr txStr with
      | none => simp [execute, hv, hp]
      | some u =>
        cases hl : lookupA st.transactions u with
        | none => simp [execute, hv, hp, hl]
        | some conn =>
          cases e with
          | error msg => simp [execute, hv, hp, hl]
          | ok r => simp [execute, hv, hp, hl]
  · intro st a q vals txStr o e c al
    cases hv : json_to_rusqlite_params vals with
    | error err =>
      simp only [execute, hv]
      intro h
      cases h
      obtain ⟨m, hm⟩ := json_to_rusqlite_params_error_shape hv
      cases hm
    | ok params =>
      cases hp : uuidFromStr txStr with
      | none => simp [execute, hv, hp]
      | some u =>
        cases hl : lookupA st.transactions u with
        | none => simp [execute, hv, hp, hl]
        | some conn =>
          cases e with
          | error msg => simp [execute, hv, hp, hl]
          | ok r => simp [execute, hv, hp, hl]
  · intro st a q vals txStr u conn params r o c hp hl hv
    simp [execute, hv, hp, hl]
  · intro st conns a q vals txStr qe o c
    cases hv : json_to_rusqlite_params vals with
    | error err => simp [select, hv]
    | ok params =>
      cases hp : uuidFromStr txStr with
      | none => simp [select, hv, hp]
      | some u =>
        cases hl : lookupA st.transactions u with
        | none => simp [select, hv, hp, hl]
        | some conn =>
          have hdb : dbAt { st with connections := conns } conn.path =
              dbAt st conn.path := rfl
          simp only [select, hv, hp, hl, hdb]
          split <;> simp_all
  · intro st a a' q vals txStr qe o c
    cases hv : json_to_rusqlite_params vals with
    | error err => simp [select, hv]
    | ok params =>
      cases hp : uuidFromStr txStr with
      | none => simp [select, hv, hp]
      | some u =>
        cases hl : lookupA st.transactions u with
        | none => simp [select, hv, hp, hl]
        | some conn => simp [select, hv, hp, hl]
  · intro st a q vals txStr qe o c al
    cases hv : json_to_rusqlite_params vals with
    | error err =>
      simp only [select, hv]
      intro h
      cases h
      obtain ⟨m, hm⟩ := json_to_rusqlite_params_error_shape hv
      cases hm
    | ok params =>
      cases hp : uuidFromStr txStr with
      | none => simp [select, hv, hp]
      | some u =>
        cases hl : lookupA st.transactions u with
        | none => simp [select, hv, hp, hl]
        | some conn =>
          cases hq : qe q params (dbAt st conn.path ++ conn.pending) with
          | error e => simp [select, hv, hp, hl, hq]
          | ok pr =>
            obtain ⟨cols, rows⟩ := pr
            simp only [select, hv, hp, hl, hq]
            cases hm : rowsToMaps cols rows with
            | error e =>
              intro h
              cases h
              rcases rowsToMaps_error_shape hm with ⟨m, hm2⟩ | ⟨m, hm2⟩ <;> cases hm2
            | ok maps =>
              intro h
              cases h
  · intro st a q vals txStr u conn params cols rows qe o c hp hl hv hq
    exact select_tx_result st a q vals txStr qe o c hp hl hv hq

/-- Witness for C10: a live transaction id routes an `execute` to the pinned
connection even though the supplied alias is not loaded, and the statement
lands in the transaction's pending list. -/
theorem C10_tx_routing_witness :
    execute ⟨[], [(5, ⟨"p", []⟩)], []⟩ "unloaded" "INSERT" [] (some "5")
      none (.ok (1, 1)) none =
      (.ok (1, 1), ⟨[], [(5, ⟨"p", [Stmt.sql "INSERT" []]⟩)], []⟩) := by
  have h := C10_tx_routing.2.2.2.1 ⟨[], [(5, ⟨"p", []⟩)], []⟩ "unloaded" "INSERT"
    [] "5" 5 ⟨"p", []⟩ [] (1, 1) none none (by rfl) (by rfl) (by rfl)
  exact h.trans (by rfl)

/-! ## Claim C6 (corrected): forward value conversion -/

/-- C6 counterexample: the dynamic number carried as the 64-bit float 3.0 has
no fractional part and fits in a 64-bit integer, yet the forward conversion
produces the 64-bit float parameter, not the integer parameter the claim
requires. -/
theorem C6_forward_counterexample :
    json_to_rusqlite_param (JsonValue.num (JsonNumber.float (F64.finite 3))) =
      .ok (SqlParam.real (F64.finite 3)) ∧
    json_to_rusqlite_param (JsonValue.num (JsonNumber.float (F64.finite 3))) ≠
      .ok (SqlParam.integer 3) := by
  constructor
  · rfl
  · intro h
    have h1 : json_to_rusqlite_param (JsonValue.num (JsonNumber.float (F64.finite 3))) =
        .ok (SqlParam.real (F64.finite 3)) := rfl
    have h2 := h1.symm.trans h
    simp at h2

/-- C6 (amended): the forward conversion maps null to NULL, boolean to
boolean, string to string as-is, and arrays and objects to a
`ValueConversionError`; a number maps to the 64-bit integer parameter exactly
when the engine's integer accessor succeeds, i.e. when the number is carried
in an integer representation fitting a signed 64-bit integer (any negative
integer, and a non-negative integer below `2^63`); a number carried in
floating-point representation maps to the 64-bit float parameter even when
it has no fractional part and fits.  A vector of parameters converts
successfully if and only if every element does. -/
theorem C6_forward_conversion :
    json_to_rusqlite_param JsonValue.null = .ok SqlParam.null
  ∧ (∀ b, json_to_rusqlite_param (JsonValue.bool b) = .ok (SqlParam.boolean b))
  ∧ (∀ s, json_to_rusqlite_param (JsonValue.str s) = .ok (SqlParam.text s))
  ∧ (∀ n : ℕ, json_to_rusqlite_param (JsonValue.num (JsonNumber.posInt n)) =
      if n ≤ 2 ^ 63 - 1 then .ok (SqlParam.integer n)
      else .ok (SqlParam.real (intAsF64 n)))
  ∧ (∀ i : ℤ, json_to_rusqlite_param (JsonValue.num (JsonNumber.negInt i)) =
      .ok (SqlParam.integer i))
  ∧ (∀ f, json_to_rusqlite_param (JsonValue.num (JsonNumber.float f)) =
      .ok (SqlParam.real f))
  ∧ (∀ xs, ∃ m, json_to_rusqlite_param (JsonValue.arr xs) =
      .error (.valueConversionError m))
  ∧ (∀ kvs, ∃ m, json_to_rusqlite_param (JsonValue.obj kvs) =
      .error (.valueConversionError m))
  ∧ (∀ vs : List JsonValue, (json_to_rusqlite_params vs).isOk =
      vs.all (fun v => (json_to_rusqlite_param v).isOk)) := by
  refine ⟨rfl, fun b => rfl, fun s => rfl, ?_, ?_, ?_, fun xs => ⟨_, rfl⟩,
    fun kvs => ⟨_, rfl⟩, ?_⟩
  · intro n
    by_cases h : n ≤ 2 ^ 63 - 1
    · have h' : n ≤ 9223372036854775807 := by omega
      simp [json_to_rusqlite_param, JsonNumber.asI64, h']
    · have h' : ¬(n ≤ 9223372036854775807) := by omega
      simp [json_to_rusqlite_param, JsonNumber.asI64, JsonNumber.asF64, h']
  · intro i
    simp [json_to_rusqlite_param, JsonNumber.asI64]
  · intro f
    simp [json_to_rusqlite_param, JsonNumber.asI64, JsonNumber.asF64]
  · intro vs
    induction vs with
    | nil => rfl
    | cons v vs ih =>
      cases hv : json_to_rusqlite_param v with
      | error e =>
        rw [show json_to_rusqlite_params (v :: vs) = .error e from by
          simp only [json_to_rusqlite_params, hv]]
        rw [List.all_cons, hv]
        rfl
      | ok p =>
        cases hr : json_to_rusqlite_params vs with
        | error e =>
          rw [hr] at ih
          rw [show json_to_rusqlite_params (v :: vs) = .error e from by
            simp only [json_to_rusqlite_params, hv, hr]]
          rw [List.all_cons, hv, ← ih]
          rfl
        | ok ps =>
          rw [hr] at ih
          rw [show json_to_rusqlite_params (v :: vs) = .ok (p :: ps) from by
            simp only [json_to_rusqlite_params, hv, hr]]
          rw [List.all_cons, hv, ← ih]
          rfl

/-! ## Claim C7: reverse value conversion -/

/-- C7: the reverse conversion maps NULL to null, a 64-bit integer to a
number, a float to a number failing with `ValueConversionError` exactly when
the float is NaN or infinite, text bytes to the string produced by lossy
UTF-8 decoding (which reproduces valid UTF-8 exactly and substitutes the
replacement character somewhere in the output for every invalid byte
sequence, never failing), and a blob to its base64-encoded string. -/
theorem C7_reverse_conversion :
    rusqlite_value_to_json SqlValue.null = .ok JsonValue.null
  ∧ (∀ i, rusqlite_value_to_json (SqlValue.integer i) =
      .ok (.num (JsonNumber.ofI64 i)))
  ∧ (∀ q : ℚ, rusqlite_value_to_json (SqlValue.real (F64.finite q)) =
      .ok (.num (JsonNumber.float (F64.finite q))))
  ∧ (∀ f, (∃ m, rusqlite_value_to_json (SqlValue.real f) =
      .error (.valueConversionError m)) ↔ (f = .nan ∨ f = .inf ∨ f = .negInf))
  ∧ (∀ t, rusqlite_value_to_json (SqlValue.text t) =
      .ok (.str (utf8LossyString t)))
  ∧ (∀ cs : List ℕ, (∀ c ∈ cs, IsScalar c) →
      utf8DecodeLossy (utf8Encode cs) = cs)
  ∧ (∀ t : List ℕ, ¬ IsUtf8 t → replacementChar ∈ utf8DecodeLossy t)
  ∧ (∀ b, rusqlite_value_to_json (SqlValue.blob b) =
      .ok (.str (base64Encode b))) := by
  refine ⟨rfl, fun i => rfl, ?_, ?_, fun t => rfl, ?_, ?_, fun b => rfl⟩
  · intro q
    simp [rusqlite_value_to_json, JsonNumber.fromF64]
  · intro f
    cases f <;> simp [rusqlite_value_to_json, JsonNumber.fromF64]
  · exact fun cs h => utf8DecodeLossy_encode h
  · exact fun t h => not_isUtf8_replacement h

/-- Witness for C7: the two-character text `H€` survives an encode/decode
round trip, and the invalid byte `0xFF` decodes to output containing the
replacement character. -/
theorem C7_reverse_conversion_witness :
    utf8DecodeLossy (utf8Encode [0x48, 0x20AC]) = [0x48, 0x20AC] ∧
    replacementChar ∈ utf8DecodeLossy [0xFF] := by
  constructor
  · exact C7_reverse_conversion.2.2.2.2.2.1 [0x48, 0x20AC] (by decide)
  · refine C7_reverse_conversion.2.2.2.2.2.2.1 [0xFF] ?_
    rintro ⟨cs, hall, henc⟩
    cases cs with
    | nil => simp [utf8Encode] at henc
    | cons c cs' =>
      rw [show utf8Encode (c :: cs') = utf8EncodeChar c ++ utf8Encode cs' from by
        simp [utf8Encode]] at henc
      have hsc := hall c (List.mem_cons_self c cs')
      by_cases h1 : c < 0x80
      · rw [show utf8EncodeChar c = [c] from by simp [utf8EncodeChar, h1]] at henc
        simp at henc
        omega
      · by_cases h2 : c < 0x800
        · rw [show utf8EncodeChar c = [0xC0 + c / 64, 0x80 + c % 64] from by
            simp [utf8EncodeChar, h1, h2]] at henc
          simp at henc
        · by_cases h3 : c < 0x10000
          · rw [show utf8EncodeChar c =
                [0xE0 + c / 4096, 0x80 + c / 64 % 64, 0x80 + c % 64] from by
              simp [utf8EncodeChar, h1, h2, h3]] at henc
            simp at henc
          · rw [show utf8EncodeChar c =
                [0xF0 + c / 0x40000, 0x80 + c / 4096 % 64, 0x80 + c / 64 % 64,
                  0x80 + c % 64] from by
              simp [utf8EncodeChar, h1, h2, h3]] at henc
            simp at henc

/-! ## Claim C8 (corrected): row materialization -/

/-- C8 counterexample: a row with duplicate column names `a`, `a` and values
1, 2 materializes as the single entry `("a", 2)` — the duplicate occurrences
are not each represented; the later occurrence overwrites the value of the
single entry. -/
theorem C8_row_duplicates_counterexample :
    buildRowMap ["a", "a"] [SqlValue.integer 1, SqlValue.integer 2] =
      .ok [("a", JsonValue.num (JsonNumber.posInt 2))] ∧
    buildRowMap ["a", "a"] [SqlValue.integer 1, SqlValue.integer 2] ≠
      .ok [("a", JsonValue.num (JsonNumber.posInt 1)),
        ("a", JsonValue.num (JsonNumber.posInt 2))] := by
  constructor
  · rfl
  · intro h
    have h1 : buildRowMap ["a", "a"] [SqlValue.integer 1, SqlValue.integer 2] =
        .ok [("a", JsonValue.num (JsonNumber.posInt 2))] := rfl
    have h2 := h1.symm.trans h
    simp at h2

/-- C8 (amended): each successful select row is an ordered mapping built from
the column names in query-result order; its keys are the distinct column
names in order of first occurrence, each entry holds the converted value of
the last occurrence of its name (so duplicate column names collapse into one
entry instead of each being represented), and when the column names are
distinct the row map is exactly the column list zipped with the converted
values in query-result order. -/
theorem C8_row_map_spec :
    (∀ (st : AppState) a q vals params info cols rows qe maps,
        json_to_rusqlite_params vals = .ok params →
        lookupA st.connections a = some info →
        qe q params (dbAt st info.path) = .ok (cols, rows) →
        rowsToMaps cols rows = .ok maps →
        (select st a q vals none qe none none).1 = .ok maps)
  ∧ (∀ cols rows maps, rowsToMaps cols rows = .ok maps →
      List.Forall₂ (fun r m => buildRowMap cols r = .ok m) rows maps)
  ∧ (∀ (cols : List String) (row : List SqlValue) jrow,
      convRow row = .ok jrow → row.length = cols.length →
      buildRowMap cols row = .ok (insertAll [] (cols.zip jrow))
    ∧ (insertAll [] (cols.zip jrow)).map Prod.fst = dedupFirst cols
    ∧ (∀ c, lookupA (insertAll [] (cols.zip jrow)) c =
        lookupA (cols.zip jrow).reverse c)
    ∧ (cols.Nodup → insertAll [] (cols.zip jrow) = cols.zip jrow)) := by
  refine ⟨?_, ?_, ?_⟩
  · intro st a q vals params info cols rows qe maps hv hl hq hm
    simp [select, hv, hl, hq, hm]
  · exact fun cols rows maps h => rowsToMaps_forall2 cols rows maps h
  · intro cols row jrow hconv hlen
    have hzip : (cols.zip jrow).map Prod.fst = cols := by
      apply List.map_fst_zip
      rw [convRow_length hconv, hlen]
    refine ⟨buildRowMap_spec hconv hlen, ?_, ?_, ?_⟩
    · rw [insertAll_keys, hzip]
    · exact insertAll_lookup _
    · intro hnd
      apply insertAll_nodup
      rw [hzip]
      exact hnd

/-- Witness for C8: a duplicate-free two-column row materializes as the
ordered zip of column names with converted values. -/
theorem C8_row_map_spec_witness :
    buildRowMap ["a", "b"] [SqlValue.integer 1, SqlValue.null] =
      .ok [("a", JsonValue.num (JsonNumber.posInt 1)), ("b", JsonValue.null)] := by
  have h := (C8_row_map_spec.2.2 ["a", "b"] [SqlValue.integer 1, SqlValue.null]
    [JsonValue.num (JsonNumber.posInt 1), JsonValue.null] (by rfl) (by rfl)).1
  exact h.trans (by rfl)

/-! ## Claim C2: commit_transaction -/

/-- C2: `commit_transaction(id)` fails with the invalid-identifier error when
`id` does not parse, and with `TransactionNotFound` when no live entry
matches; otherwise it removes the entry from the transaction registry before
issuing `COMMIT`, propagates an engine-level commit failure as an error while
the entry stays removed, and a second call with the same id therefore always
fails with `TransactionNotFound`. -/
theorem C2_commit_spec :
    (∀ st id r, uuidFromStr id = none →
      commit_transaction st id r = (.error (.invalidUuid id), st))
  ∧ (∀ st id u r, uuidFromStr id = some u → lookupA st.transactions u = none →
      commit_transaction st id r = (.error (.transactionNotFound id), st))
  ∧ (∀ st id u conn r, uuidFromStr id = some u →
      lookupA st.transactions u = some conn →
      (commit_transaction st id r).2.transactions = eraseA u st.transactions
    ∧ (∀ e, r = some e → (commit_transaction st id r).1 = .error (.rusqlite e))
    ∧ (r = none → commit_transaction st id r =
        (.ok (), setDb { st with transactions := eraseA u st.transactions }
          conn.path (dbAt st conn.path ++ conn.pending))))
  ∧ (∀ st id u conn r r', uuidFromStr id = some u →
      lookupA st.transactions u = some conn →
      (commit_transaction (commit_transaction st id r).2 id r').1 =
        .error (.transactionNotFound id)) := by
  have hfound : ∀ (st : AppState) id u conn r, uuidFromStr id = some u →
      lookupA st.transactions u = some conn →
      (commit_transaction st id r).2.transactions = eraseA u st.transactions := by
    intro st id u conn r hp hl
    cases r with
    | some e => simp [commit_transaction, hp, hl]
    | none => simp [commit_transaction, hp, hl, setDb]
  refine ⟨?_, ?_, ?_, ?_⟩
  · intro st id r hp
    simp [commit_transaction, hp]
  · intro st id u r hp hl
    simp [commit_transaction, hp, hl]
  · intro st id u conn r hp hl
    refine ⟨hfound st id u conn r hp hl, ?_, ?_⟩
    · intro e hr
      subst hr
      simp [commit_transaction, hp, hl]
    · intro hr
      subst hr
      simp [commit_transaction, hp, hl, setDb, dbAt]
  · intro st id u conn r r' hp hl
    have h2 : lookupA (commit_transaction st id r).2.transactions u = none := by
      rw [hfound st id u conn r hp hl, lookupA_eraseA_self]
    generalize hst : (commit_transaction st id r).2 = st₂ at h2 ⊢
    simp [commit_transaction, hp, h2]

/-- Witness for C2 at a concrete state: a live transaction `5` on path `"p"`
is committed once (success) and a second commit fails with
`TransactionNotFound`; a malformed id fails with the invalid-identifier
error. -/
theorem C2_commit_spec_witness :
    ((commit_transaction ⟨[], [(5, ⟨"p", []⟩)], []⟩ "nope" none).1 =
      .error (.invalidUuid "nope"))
  ∧ (commit_transaction (commit_transaction ⟨[], [(5, ⟨"p", []⟩)], []⟩ "5" none).2
      "5" none).1 = .error (.transactionNotFound "5") := by
  constructor
  · rw [C2_commit_spec.1 ⟨[], [(5, ⟨"p", []⟩)], []⟩ "nope" none (by rfl)]
  · exact C2_commit_spec.2.2.2 ⟨[], [(5, ⟨"p", []⟩)], []⟩ "5" 5 ⟨"p", []⟩ none none
      (by rfl) (by rfl)

/-! ## Claim C3: rollback_transaction -/

/-- C3: for every live transaction id, `rollback_transaction` removes the
entry from the transaction registry and returns success regardless of whether
the engine-level `ROLLBACK` fails (the engine result `r` is universally
quantified and does not influence the outcome). -/
theorem C3_rollback_spec : ∀ (st : AppState) id u conn r,
    uuidFromStr id = some u → lookupA st.transactions u = some conn →
    rollback_transaction st id r =
      (.ok (), { st with transactions := eraseA u st.transactions }) := by
  intro st id u conn r hp hl
  simp [rollback_transaction, hp, hl]

/-- Witness for C3: rolling back the live transaction `5` with a failing
engine `ROLLBACK` still succeeds and empties the registry. -/
theorem C3_rollback_spec_witness :
    rollback_transaction ⟨[], [(5, ⟨"p", []⟩)], []⟩ "5" (some "disk error") =
      (.ok (), ⟨[], [], []⟩) := by
  have h := C3_rollback_spec ⟨[], [(5, ⟨"p", []⟩)], []⟩ "5" 5 ⟨"p", []⟩
    (some "disk error") (by rfl) (by rfl)
  exact h.trans (by rfl)

/-! ## Claim C5: close -/

/-- C5: `close(alias)` fails with `DatabaseNotLoaded` iff the alias has no
registry entry, otherwise removes exactly that entry and returns `true`;
`close` with no alias always succeeds with `true` and leaves the alias
registry empty. -/
theorem C5_close_spec :
    (∀ (st : AppState) a, ((close st (some a)).1 = .error (.databaseNotLoaded a) ↔
      lookupA st.connections a = none))
  ∧ (∀ (st : AppState) a info, lookupA st.connections a = some info →
      close st (some a) = (.ok true, { st with connections := eraseA a st.connections }))
  ∧ (∀ st : AppState, close st none = (.ok true, { st with connections := [] })) := by
  refine ⟨?_, ?_, ?_⟩
  · intro st a
    cases hl : lookupA st.connections a with
    | none => simp [close, hl]
    | some info => simp [close, hl]
  · intro st a info hl
    simp [close, hl]
  · intro st
    simp [close]

/-- Witness for C5: closing a loaded alias removes it; closing an unloaded
alias fails; `close(None)` on an empty registry succeeds. -/
theorem C5_close_spec_witness :
    close ⟨[("sqlite:a.db", ⟨"p"⟩)], [], []⟩ (some "sqlite:a.db") =
      (.ok true, ⟨[], [], []⟩)
  ∧ ((close (⟨[], [], []⟩ : AppState) (some "x")).1 =
      .error (.databaseNotLoaded "x"))
  ∧ close (⟨[], [], []⟩ : AppState) none = (.ok true, ⟨[], [], []⟩) := by
  refine ⟨?_, ?_, ?_⟩
  · have h := C5_close_spec.2.1 ⟨[("sqlite:a.db", ⟨"p"⟩)], [], []⟩ "sqlite:a.db"
      ⟨"p"⟩ (by rfl)
    exact h.trans (by rfl)
  · exact (C5_close_spec.1 ⟨[], [], []⟩ "x").mpr (by rfl)
  · exact C5_close_spec.2.2 ⟨[], [], []⟩

/-! ## Claim C9: migrate -/

/-- C9: `migrate(alias, version)` fails with `DatabaseNotLoaded` when the
alias is not registered and with `ConnectionFailed` when the connection
cannot be opened or closed; a failure of the migration runner (`m`,
universally quantified) is swallowed: with open and close succeeding the
command returns success whatever the runner did. -/
theorem C9_migrate_spec :
    (∀ (st : AppState) v db o m c, lookupA st.connections db = none →
      migrate st v db o m c = (.error (.databaseNotLoaded db), st))
  ∧ (∀ (st : AppState) v db info e m c, lookupA st.connections db = some info →
      migrate st v db (some e) m c = (.error (.connectionFailed info.path e), st))
  ∧ (∀ (st : AppState) v db info m e, lookupA st.connections db = some info →
      ∃ d, (migrate st v db none m (some e)).1 =
        .error (.connectionFailed info.path d))
  ∧ (∀ (st : AppState) v db info m, lookupA st.connections db = some info →
      (migrate st v db none m none).1 = .ok ()) := by
  refine ⟨?_, ?_, ?_, ?_⟩
  · intro st v db o m c hl
    simp [migrate, hl]
  · intro st v db info e m c hl
    simp [migrate, hl]
  · intro st v db info m e hl
    refine ⟨"MDQ0NVDT9BZGG: Failed to close connection." ++ e, ?_⟩
    cases m with
    | error e' => simp [migrate, hl]
    | ok u => simp [migrate, hl]
  · intro st v db info m hl
    cases m with
    | error e => simp [migrate, hl]
    | ok u => simp [migrate, hl]

/-- Witness for C9: with the alias loaded and open/close succeeding, a
failing migration runner still yields success; an unloaded alias fails. -/
theorem C9_migrate_spec_witness :
    (migrate ⟨[("sqlite:a.db", ⟨"p"⟩)], [], []⟩ 3 "sqlite:a.db" none
      (.error "migration failed") none).1 = .ok ()
  ∧ migrate (⟨[], [], []⟩ : AppState) 3 "sqlite:a.db" none (.ok ()) none =
      (.error (.databaseNotLoaded "sqlite:a.db"), ⟨[], [], []⟩) := by
  constructor
  · exact C9_migrate_spec.2.2.2 ⟨[("sqlite:a.db", ⟨"p"⟩)], [], []⟩ 3 "sqlite:a.db"
      ⟨"p"⟩ (.error "migration failed") (by rfl)
  · exact C9_migrate_spec.1 ⟨[], [], []⟩ 3 "sqlite:a.db" none (.ok ()) none (by rfl)

/-! ## Claim C1: transaction visibility -/

theorem execute_tx_registries_eq (st : AppState) (a q : String)
    (vals : List JsonValue) (txStr : String) (o : Option String)
    (e : Except String (ℕ × ℤ)) (c : Option String) :
    (execute st a q vals (some txStr) o e c).2.connections = st.connections ∧
    (execute st a q vals (some txStr) o e c).2.committed = st.committed := by
  rcases execute_state_cases st a q vals (some txStr) o e c with
    h | ⟨ts, u, conn, params, ht, _, _, _, h⟩ | ⟨ht, _⟩
  · rw [h]; exact ⟨rfl, rfl⟩
  · rw [h]; exact ⟨rfl, rfl⟩
  · cases ht

theorem commit_found_none (st : AppState) (id : String) {u : Uuid} {conn : TxConn}
    (hp : uuidFromStr id = some u) (hl : lookupA st.transactions u = some conn) :
    commit_transaction st id none =
      (.ok (), setDb { st with transactions := eraseA u st.transactions } conn.path
        (dbAt st conn.path ++ conn.pending)) := by
  simp [commit_transaction, hp, hl, setDb, dbAt]

/-- C1: a statement executed through a live transaction id is invisible to
non-transactional selects against the same alias until the transaction is
committed, visible to them after a successful commit, and never visible after
a rollback.  Concretely: (i) a transactional `execute` changes neither the
alias registry nor any database file; (ii) a non-transactional `select` reads
only the contents of the alias's resolved file, so (iii) its result is
unchanged by a preceding transactional `execute`; (iv) as long as no
successful `commit_transaction` of the id occurs and the statement is not
executed through another route, no database file contains the statement;
(v) after a successful commit the statement is in the transaction's file and
remains there across arbitrary subsequent operations, making it visible to
subsequent non-transactional selects of that file; (vi) `rollback_transaction`
reports success, and afterwards — as long as the statement is not re-executed
— no database file ever contains it. -/
theorem C1_transaction_visibility :
    (∀ (st : AppState) a q vals txStr o e c,
        (execute st a q vals (some txStr) o e c).2.connections = st.connections
      ∧ (execute st a q vals (some txStr) o e c).2.committed = st.committed)
  ∧ (∀ (st₁ st₂ : AppState) a q vals qe oR cR,
        lookupA st₁.connections a = lookupA st₂.connections a →
        (∀ info, lookupA st₁.connections a = some info →
          dbAt st₁ info.path = dbAt st₂ info.path) →
        (select st₁ a q vals none qe oR cR).1 = (select st₂ a q vals none qe oR cR).1)
  ∧ (∀ (st : AppState) a' q' vals' txStr o e c a q vals qe oR cR,
        (select (execute st a' q' vals' (some txStr) o e c).2 a q vals none qe oR cR).1 =
          (select st a q vals none qe oR cR).1)
  ∧ (∀ (st : AppState) u s ops, CommittedFree s st → OtherPendingFree u s st →
        (∀ op ∈ ops, ¬ ExecutesStmt s op) →
        (∀ op ∈ ops, ¬ SuccessfulCommitOf u op) →
        CommittedFree s (runOps st ops))
  ∧ (∀ (st : AppState) txStr u conn s ps ops, uuidFromStr txStr = some u →
        lookupA st.transactions u = some conn → Stmt.sql s ps ∈ conn.pending →
        (commit_transaction st txStr none).1 = .ok ()
      ∧ Stmt.sql s ps ∈ dbAt (runOps (commit_transaction st txStr none).2 ops) conn.path)
  ∧ (∀ (st : AppState) txStr u conn s r ops, uuidFromStr txStr = some u →
        lookupA st.transactions u = some conn →
        CommittedFree s st → OtherPendingFree u s st →
        (∀ op ∈ ops, ¬ ExecutesStmt s op) →
        (rollback_transaction st txStr r).1 = .ok ()
      ∧ CommittedFree s (runOps (rollback_transaction st txStr r).2 ops)) := by
  refine ⟨execute_tx_registries_eq, ?_, ?_, ?_, ?_, ?_⟩
  · exact fun st₁ st₂ a q vals qe oR cR h1 h2 =>
      select_nonTx_congr st₁ st₂ a q vals qe oR cR h1 h2
  · intro st a' q' vals' txStr o e c a q vals qe oR cR
    obtain ⟨hconn, hcomm⟩ := execute_tx_registries_eq st a' q' vals' txStr o e c
    refine select_nonTx_congr _ st a q vals qe oR cR (by rw [hconn]) ?_
    intro info _
    exact dbAt_congr hcomm info.path
  · intro st u s ops hc hp hex hco
    exact (runOps_preserves_A st ops hc hp hex hco).1
  · intro st txStr u conn s ps ops hp hl hmem
    have hc := commit_found_none st txStr hp hl
    constructor
    · rw [hc]
    · apply runOps_dbAt_mono
      rw [hc]
      show Stmt.sql s ps ∈ dbAt (setDb { st with transactions := eraseA u st.transactions }
        conn.path (dbAt st conn.path ++ conn.pending)) conn.path
      rw [dbAt_setDb_self]
      exact List.mem_append_right _ hmem
  · intro st txStr u conn s r ops hp hl hc hpo hex
    have hrb : rollback_transaction st txStr r =
        (.ok (), { st with transactions := eraseA u st.transactions }) := by
      simp [rollback_transaction, hp, hl]
    constructor
    · rw [hrb]
    · have hstate : (rollback_transaction st txStr r).2 =
          { st with transactions := eraseA u st.transactions } := by rw [hrb]
      rw [hstate]
      have hcf : CommittedFree s { st with transactions := eraseA u st.transactions } :=
        CommittedFree_congr rfl hc
      have hall : AllPendingFree s { st with transactions := eraseA u st.transactions } := by
        intro v cc hv
        have hv2 : lookupA (eraseA u st.transactions) v = some cc := hv
        rw [lookupA_eraseA] at hv2
        by_cases huv : u = v
        · simp [huv] at hv2
        · rw [if_neg huv] at hv2
          exact hpo v cc hv2 (fun hvu => huv hvu.symm)
      exact (runOps_preserves_C _ ops hcf hall hex).1

/-- Witness for C1: a live transaction `5` on file `"p"` with the pending
statement `INSERT` commits successfully and the statement is in the file
afterwards. -/
theorem C1_transaction_visibility_witness :
    (commit_transaction ⟨[("sqlite:a.db", ⟨"p"⟩)],
      [(5, ⟨"p", [Stmt.sql "INSERT" []]⟩)], []⟩ "5" none).1 = .ok ()
  ∧ Stmt.sql "INSERT" [] ∈ dbAt (runOps (commit_transaction
      ⟨[("sqlite:a.db", ⟨"p"⟩)], [(5, ⟨"p", [Stmt.sql "INSERT" []]⟩)], []⟩
      "5" none).2 []) "p" :=
  C1_transaction_visibility.2.2.2.2.1
    ⟨[("sqlite:a.db", ⟨"p"⟩)], [(5, ⟨"p", [Stmt.sql "INSERT" []]⟩)], []⟩
    "5" 5 ⟨"p", [Stmt.sql "INSERT" []]⟩ "INSERT" [] [] (by rfl) (by rfl)
    (by simp)

end Rusqlite2
